import Mathlib

/-!
# ECS core: component registry, unordered container, sparse type table, mutation log

A shallow embedding of the Go sources `component_meta.go`, `unordered_container.go`,
`component_collection.go`, `system.go`, `collection_iter.go`, `direct_api.go`,
`threadpool_worker.go` and `container_with_id.go`, followed by theorems about the
embedded functions.

Conventions of the embedding

* `reflect.Type` is a natural number (`RType`); only equality of types is ever used.
* A Go `map` is an association list; `range` visits it in stored order. Go leaves the
  order unspecified, and no statement below depends on it.
* Machine integers are naturals or integers with the wrap-around written out
  (`% 2 ^ 16` for `uint16`, `% 2 ^ 64` for `uintptr`).
* A run-time panic (slice bounds, index out of range) is the result `none`.
* Locks are not modelled: every function below runs its body atomically.
-/

set_option autoImplicit false

namespace Ecs

/-- Stand-in for `reflect.Type`: types are compared for equality only. -/
abbrev RType := Nat

/-! ## component_meta.go -/

/-- Go `ComponentMetaInfo`. -/
structure ComponentMetaInfo where
  it : Nat
  deriving DecidableEq, Repr

/-- Go `componentMeta` without its mutex: the sequence counter (a `uint16`) and the
map from type to id. -/
structure componentMeta where
  seq : Nat
  types : List (RType × Nat)
  deriving DecidableEq, Repr

/-- The package variable `ComponentMeta`: counter 0 and an empty map. -/
def ComponentMeta : componentMeta :=
  { seq := 0, types := [] }

/-- Go `(*componentMeta).GetComponentMetaInfo`. Both branches that find the type in the
map return the stored id; the remaining branch increments `seq` (wrapping as a `uint16`)
and returns it. The source never writes to `c.types`, so the map is returned as it was. -/
def componentMeta.GetComponentMetaInfo (c : componentMeta) (typ : RType) :
    ComponentMetaInfo × componentMeta :=
  match c.types.lookup typ with
  | some v => ({ it := v }, c)
  | none =>
    match c.types.lookup typ with
    | some v => ({ it := v }, c)
    | none =>
      let c1 : componentMeta := { c with seq := (c.seq + 1) % 2 ^ 16 }
      ({ it := c1.seq }, c1)

/-! ## unordered_container.go -/

/-- Go `UnorderedContainer`. `buf` holds the bytes `buf[0:len(buf)]`, `bufCap` is
`cap(buf)`, `len` is the Go `int` field, `unit` and `head` are the `uintptr` fields;
`head` caches the address of the first byte of `buf`. -/
structure UnorderedContainer where
  buf : List Nat
  bufCap : Nat
  len : Int
  unit : Nat
  head : Nat
  deriving DecidableEq, Repr

/-- Go `NewContainer`: `make([]byte, 0, size)`, `len` 0, `unit` = size, `head` the zero
value. -/
def NewContainer (size : Nat) : UnorderedContainer :=
  { buf := [], bufCap := size, len := 0, unit := size, head := 0 }

/-- The `unit` bytes found at a pointer: `mem i` is the byte at offset `i`. -/
def bytesAt (mem : Nat → Nat) (unit : Nat) : List Nat :=
  (List.range unit).map mem

/-- Conversion to `int64` (and to `int`, which has 64 bits): the value wraps into
`-2 ^ 63 ≤ x < 2 ^ 63`. -/
def int64 (x : Int) : Int :=
  (x + 2 ^ 63) % 2 ^ 64 - 2 ^ 63

/-- Conversion `uintptr(x)` of an `int`: the value modulo `2 ^ 64`. -/
def uintptr (x : Int) : Nat :=
  (x % 2 ^ 64).toNat

/-- Go `(*UnorderedContainer).Add`. The pointer argument is given by the memory behind
it (`mem`). `append` is the Go built-in: the bytes are added at the end, and the run time
decides where the resulting backing array lives (`addr`) and how large it is (`newCap`).
The result is the returned index, the returned pointer and the new container. -/
def UnorderedContainer.Add (p : UnorderedContainer) (mem : Nat → Nat) (addr newCap : Nat) :
    (Int × Nat) × UnorderedContainer :=
  let p1 : UnorderedContainer :=
    { p with buf := p.buf ++ bytesAt mem p.unit, bufCap := newCap, head := addr,
             len := int64 (p.len + 1) }
  ((int64 (p1.len - 1), (p1.head + uintptr (int64 (p1.len - 1)) * p1.unit) % 2 ^ 64), p1)

/-- Go `copy(dst, src)` where `dst` is `buf[lo:hi]`: the first `min (hi - lo) (len src)`
bytes of `src` overwrite `buf` from position `lo`. -/
def copyInto (buf : List Nat) (lo hi : Nat) (src : List Nat) : List Nat :=
  let n := min (hi - lo) src.length
  buf.take lo ++ src.take n ++ buf.drop (lo + n)

/-- Go `(*UnorderedContainer).Remove`. The three slice expressions are checked the way Go
checks them: `buf[a:b]` needs `a ≤ b ≤ cap(buf)`, `buf[a:]` needs `a ≤ len(buf)`,
`buf[:b]` needs `b ≤ cap(buf)`; a failed check is a panic (`none`). The offsets are
computed from `p.head`, as in the source. -/
def UnorderedContainer.Remove (p : UnorderedContainer) (idx : Int) :
    Option UnorderedContainer :=
  if idx < 0 ∨ idx ≥ p.len then some p
  else
    let offsetDelete := (p.head + uintptr idx * p.unit) % 2 ^ 64
    let offsetEnd := (p.head + uintptr p.len * p.unit) % 2 ^ 64
    let hi := (offsetDelete + p.unit) % 2 ^ 64
    if ¬ (offsetDelete ≤ hi ∧ hi ≤ p.bufCap) then none
    else if ¬ (offsetEnd ≤ p.buf.length) then none
    else
      let buf1 := copyInto p.buf offsetDelete hi (p.buf.drop offsetEnd)
      if ¬ (offsetEnd ≤ p.bufCap) then none
      else some { p with buf := buf1.take offsetEnd, len := int64 (p.len - 1) }

/-- Go `(*UnorderedContainer).Get`: `nil` (`none`) outside `0 ≤ idx < len`, otherwise
the address `head + idx * unit`. -/
def UnorderedContainer.Get (p : UnorderedContainer) (idx : Int) : Option Nat :=
  if idx < 0 ∨ idx ≥ p.len then none
  else some ((p.head + uintptr idx * p.unit) % 2 ^ 64)

/-- What a caller reads through a pointer returned by `Add` or `Get`: the `unit` bytes
at address `a`, the backing array of `buf` being stored from address `head` on. A
pointer that does not lie inside `buf[0:len(buf)]` reads nothing. -/
def UnorderedContainer.read (p : UnorderedContainer) (a : Nat) : Option (List Nat) :=
  if p.head ≤ a ∧ a - p.head + p.unit ≤ p.buf.length then
    some ((p.buf.drop (a - p.head)).take p.unit)
  else none

/-- The element a caller sees at `idx`: `Get` followed by a read through the pointer. -/
def UnorderedContainer.elem (p : UnorderedContainer) (idx : Int) : Option (List Nat) :=
  (p.Get idx).bind p.read

/-! ## component_collection.go -/

/-- Go `CollectionOperate` with its three constants. -/
inductive CollectionOperate where
  | CollectionOperateNone
  | CollectionOperateAdd
  | CollectionOperateDelete
  deriving DecidableEq, Repr

/-- Modelled from the spec: the declaration of the component kinds is not among the
sources; the spec names the four kinds Normal, Disposable, Free and FreeDisposable. -/
inductive ComponentType where
  | ComponentTypeNormal
  | ComponentTypeDisposable
  | ComponentTypeFree
  | ComponentTypeFreeDisposable
  deriving DecidableEq, Repr

/-- Modelled from the spec: the component declaration used by `component_collection.go`
is not among the sources. A component instance is a record of its type (`Type()`), its
kind (`getComponentType()`), a back-reference to its owner entity (`Owner()`,
`setOwner`), its current type id (`setIntType`) and its data. -/
structure IComponent where
  typ : RType
  kind : ComponentType
  owner : Int
  intType : Nat
  payload : Nat
  deriving DecidableEq, Repr

/-- Modelled from the spec: the storage type behind `IComponentSet` is not among the
sources. A typed storage is a dense array of components (`data`) together with its
element type (`ElementType()`) and the meta information of that type
(`GetElementMeta()`). -/
structure IComponentSet where
  elementType : RType
  elementMeta : ComponentMetaInfo
  data : List IComponent
  deriving DecidableEq, Repr

/-- Modelled from the spec: `clear()` of a typed storage removes every element. -/
def IComponentSet.Clear (s : IComponentSet) : IComponentSet :=
  { s with data := [] }

/-- Modelled from the spec: applying an add appends the component to the storage
(`addToCollection`). -/
def IComponent.addToCollection (com : IComponent) (s : IComponentSet) : IComponentSet :=
  { s with data := s.data ++ [com] }

/-- One pending operation (`opTask` in the source: fields `target`, `com`, `op`). -/
structure opTask where
  target : Int
  com : IComponent
  op : CollectionOperate
  deriving DecidableEq, Repr

/-- Modelled from the spec: the list type `opTaskList` is not among the sources. The spec
describes it as an append-only linked list of operations that keeps submission order and
is concatenated on merge; it is the list of its tasks from `head` on. -/
abbrev opTaskList := List opTask

/-- Modelled from the spec: `Append` puts the operation at the end of the list. -/
def opTaskList.Append (tl : opTaskList) (t : opTask) : opTaskList :=
  tl ++ [t]

/-- Modelled from the spec: `Combine` concatenates the other list after this one. -/
def opTaskList.Combine (tl other : opTaskList) : opTaskList :=
  tl ++ other

/-- Modelled from the spec: `Len` is the number of operations in the list. -/
def opTaskList.Len (tl : opTaskList) : Nat :=
  tl.length

/-- Assignment `m[k] = v` on a Go map: an existing key keeps its place and gets the new
value, a new key is added. -/
def mapSet {V : Type} (m : List (RType × V)) (k : RType) (v : V) : List (RType × V) :=
  match m with
  | [] => [(k, v)]
  | (k1, v1) :: rest => if k1 = k then (k, v) :: rest else (k1, v1) :: mapSet rest k v

/-- Go `SparseComponentCollection`. A storage pointer is the position of the storage in
`sets`; every `Add` registers a storage object of its own. -/
structure SparseComponentCollection where
  m : List (RType × Int)
  indices : List Int
  sets : List IComponentSet
  deriving DecidableEq, Repr

/-- Go `NewSparseComponentCollection`. -/
def NewSparseComponentCollection : SparseComponentCollection :=
  { m := [], indices := [], sets := [] }

/-- Go `make([]int, n)` followed by `copy(newIndices, old)`. -/
def growIndices (old : List Int) (n : Nat) : List Int :=
  old.take (min n old.length) ++ List.replicate (n - min n old.length) 0

/-- Go `(*SparseComponentCollection).Add`; `intType` is the `uint16` argument. The
conversions `uint16(len(s.indices))` and the sum `intType+1` wrap at `2 ^ 16`; the
assignment `s.indices[intType] = index` panics (`none`) when `intType` is not below the
length of `s.indices`. -/
def SparseComponentCollection.Add (s : SparseComponentCollection) (intType : Nat)
    (componentSet : IComponentSet) : Option SparseComponentCollection :=
  let indices1 :=
    if intType ≥ s.indices.length % 2 ^ 16 then growIndices s.indices ((intType + 1) % 2 ^ 16)
    else s.indices
  let index : Int := s.sets.length
  let m1 := mapSet s.m componentSet.elementType index
  if intType < indices1.length then
    some { m := m1, indices := indices1.set intType index, sets := s.sets ++ [componentSet] }
  else none

/-- The Go expression `s.sets[index]` for an `int` index: the position in `sets`, or a
panic (`none`) when the index is out of range. -/
def SparseComponentCollection.setAt (s : SparseComponentCollection) (index : Int) :
    Option Nat :=
  if 0 ≤ index ∧ index < s.sets.length then some index.toNat else none

/-- Go `(*SparseComponentCollection).Get`. The outer `none` is a panic, `some none` is the
result `nil`, `some (some i)` is the storage `s.sets[i]`. -/
def SparseComponentCollection.Get (s : SparseComponentCollection) (intType : Nat) :
    Option (Option Nat) :=
  if intType ≥ s.indices.length % 2 ^ 16 then some none
  else
    match s.indices.get? intType with
    | none => none
    | some index => if index = -1 then some none else (s.setAt index).map some

/-- Go `(*SparseComponentCollection).GetByType`, with the result read as for `Get`. -/
def SparseComponentCollection.GetByType (s : SparseComponentCollection) (typ : RType) :
    Option (Option Nat) :=
  match s.m.lookup typ with
  | none => some none
  | some index => (s.setAt index).map some

/-- The storage object behind a storage pointer. -/
def SparseComponentCollection.deref (s : SparseComponentCollection) (ref : Nat) :
    Option IComponentSet :=
  s.sets.get? ref

/-- Go `a & b` on `int64` values: bitwise and of the two's complement bit patterns. -/
def and64 (a b : Int) : Int :=
  int64 (((a % 2 ^ 64).toNat &&& (b % 2 ^ 64).toNat : Nat) : Int)

/-- An `int64` index into a slice of length `n`: the position, or a panic (`none`). -/
def sliceIndex (h : Int) (n : Nat) : Option Nat :=
  if 0 ≤ h ∧ h < n then some h.toNat else none

/-- One event sent on `world.siblingCache.ch`: the arguments of `CacheOp.Set`. -/
structure CacheOp where
  target : Int
  it : Nat
  op : Nat
  deriving DecidableEq, Repr

/-- Go `ComponentCollection`. `locks` keeps only the number of mutexes; `cacheCh` is the
sequence of events sent on the sibling-cache channel of `world`; `once[i]` is the key set
of the map `c.once[i]`. -/
structure ComponentCollection where
  collections : SparseComponentCollection
  cacheCh : List CacheOp
  bucket : Int
  locks : List Unit
  opLog : List (List (RType × opTaskList))
  once : List (List RType)
  deriving DecidableEq, Repr

/-- The loop `for i := 1; ; i++` of `NewComponentCollection`, started at `i` and run
for at most `fuel` rounds; `none` means the fuel ran out. `int64(1 << i)` is
`int64 (2 ^ i)`: `2 ^ i` below `i = 63`, `-2 ^ 63` at `i = 63` and `0` from `i = 64`
on. The subtraction `c - 1` does not wrap: `c` is above `int64 k` where it is done. -/
def bucketLoop (k : Int) : Nat → Nat → Option Int
  | 0, _ => none
  | fuel + 1, i =>
    let c := int64 (2 ^ i)
    if int64 k < c then some (c - 1) else bucketLoop k fuel (i + 1)

/-- Go `NewComponentCollection` (the `world` argument is represented by its empty
sibling-cache channel). `make` with a negative length panics. `initOptTemp` and
`initOnce` put an empty map into every shard. -/
def NewComponentCollection (fuel : Nat) (k : Int) : Option ComponentCollection :=
  match bucketLoop k fuel 1 with
  | none => none
  | some bucket =>
    if bucket + 1 < 0 then none
    else
      let n := (bucket + 1).toNat
      some { collections := NewSparseComponentCollection
             cacheCh := []
             bucket := bucket
             locks := List.replicate n ()
             opLog := List.replicate n []
             once := List.replicate n [] }

/-- Go `(*ComponentCollection).operate`. `addr` is the address of the local variable
`hash`, which the source hashes for the free kinds. Indexing `c.opLog` or `c.locks` out
of range is a panic (`none`). -/
def ComponentCollection.operate (c : ComponentCollection) (op : CollectionOperate)
    (entity : Int) (component : IComponent) (addr : Nat) : Option ComponentCollection :=
  let hash : Int :=
    match component.kind with
    | .ComponentTypeFree | .ComponentTypeFreeDisposable => and64 (int64 addr) c.bucket
    | .ComponentTypeNormal | .ComponentTypeDisposable => and64 (int64 entity) c.bucket
  let typ := component.typ
  let newOpt : opTask := { target := entity, com := component, op := op }
  match sliceIndex hash c.opLog.length, sliceIndex hash c.locks.length with
  | some h, some _ =>
    let b := c.opLog.getD h []
    let tl : opTaskList := (b.lookup typ).getD []
    some { c with opLog := c.opLog.set h (mapSet b typ (tl.Append newOpt)) }
  | _, _ => none

/-- Go `(*ComponentCollection).disposableTemp`; `addr` as in `operate`. -/
def ComponentCollection.disposableTemp (c : ComponentCollection) (com : IComponent)
    (typ : RType) (addr : Nat) : Option ComponentCollection :=
  let hash : Int :=
    match com.kind with
    | .ComponentTypeFree | .ComponentTypeFreeDisposable => and64 (int64 addr) c.bucket
    | .ComponentTypeNormal | .ComponentTypeDisposable =>
      let e := com.owner
      and64 (int64 e) c.bucket
  match sliceIndex hash c.locks.length, sliceIndex hash c.once.length with
  | some _, some h =>
    let m := c.once.getD h []
    if typ ∈ m then some c else some { c with once := c.once.set h (m ++ [typ]) }
  | _, _ => none

/-- Go `(*ComponentCollection).removeAllByType`. -/
def ComponentCollection.removeAllByType (c : ComponentCollection) (typ : RType) :
    Option ComponentCollection :=
  match c.collections.GetByType typ with
  | none => none
  | some none => some c
  | some (some ref) =>
    some { c with collections :=
      { c.collections with sets := c.collections.sets.modify IComponentSet.Clear ref } }

/-- The inner loop of `clearDisposable`: `removeAllByType` for every type of the shard's
set (the `delete` is done by the caller, which empties the set). -/
def ComponentCollection.removeTypes : List RType → ComponentCollection →
    Option ComponentCollection
  | [], c => some c
  | typ :: rest, c =>
    match c.removeAllByType typ with
    | none => none
    | some c1 => removeTypes rest c1

/-- The loop `for i := 0; i < len(c.once); i++` of `clearDisposable`, with `todo` rounds
left and the loop variable at `i`. -/
def ComponentCollection.clearLoop : Nat → Nat → ComponentCollection →
    Option ComponentCollection
  | 0, _, c => some c
  | todo + 1, i, c =>
    if i < c.locks.length then
      match c.once.get? i with
      | none => none
      | some m =>
        match c.removeTypes m with
        | none => none
        | some c1 => clearLoop todo (i + 1) { c1 with once := c1.once.set i [] }
    else none

/-- Go `(*ComponentCollection).clearDisposable`. -/
def ComponentCollection.clearDisposable (c : ComponentCollection) :
    Option ComponentCollection :=
  c.clearLoop c.once.length 0

/-- A task returned by `getTempTasks`: the closure `func() { c.opExecute(taskList, set) }`
is given by the two values it captures; `set` is a storage pointer (`none` is `nil`). -/
structure Task where
  taskList : opTaskList
  set : Option Nat
  deriving DecidableEq, Repr

/-- The body of `for typ, list := range c.opLog[i]` in `getTempTasks`, over one shard. -/
def mergeShard (combination shard : List (RType × opTaskList)) : List (RType × opTaskList) :=
  match shard with
  | [] => combination
  | (typ, list) :: rest =>
    if list.Len = 0 then mergeShard combination rest
    else
      match combination.lookup typ with
      | some l => mergeShard (mapSet combination typ (l.Combine list)) rest
      | none => mergeShard (mapSet combination typ list) rest

/-- The first loop of `getTempTasks` from shard `i` on, the shards still to visit being
`shards`; `c.locks[i]` panics when there are fewer locks than shards. -/
def drainShards (locks : Nat) : Nat → List (List (RType × opTaskList)) →
    List (RType × opTaskList) → Option (List (RType × opTaskList))
  | _, [], combination => some combination
  | i, shard :: rest, combination =>
    if i < locks then drainShards locks (i + 1) rest (mergeShard combination shard) else none

/-- The second loop of `getTempTasks`: one task per entry of `combination`; a type without
storage gets the storage made by `newCollection` of the first component of its list. -/
def buildTasks (newCollection : IComponent → IComponentSet) :
    List (RType × opTaskList) → SparseComponentCollection →
    Option (List Task × SparseComponentCollection)
  | [], s => some ([], s)
  | (typ, list) :: rest, s =>
    match s.GetByType typ with
    | none => none
    | some (some ref) =>
      match buildTasks newCollection rest s with
      | none => none
      | some (tasks, s2) => some ({ taskList := list, set := some ref } :: tasks, s2)
    | some none =>
      match list.head? with
      | none => none
      | some t =>
        let newSet := newCollection t.com
        match s.Add newSet.elementMeta.it newSet with
        | none => none
        | some s1 =>
          match s1.Get newSet.elementMeta.it with
          | none => none
          | some set =>
            match buildTasks newCollection rest s1 with
            | none => none
            | some (tasks, s2) => some ({ taskList := list, set := set } :: tasks, s2)

/-- Go `(*ComponentCollection).getTempTasks`. `newCollection` is the method of the same
name of the component interface, which is not among the sources. Every shard is replaced
by an empty map. -/
def ComponentCollection.getTempTasks (newCollection : IComponent → IComponentSet)
    (c : ComponentCollection) : Option (List Task × ComponentCollection) :=
  match drainShards c.locks.length 0 c.opLog [] with
  | none => none
  | some combination =>
    match buildTasks newCollection combination c.collections with
    | none => none
    | some (tasks, s) =>
      some (tasks, { c with opLog := c.opLog.map (fun _ => []), collections := s })

/-- One round of the loop of `opExecute` over the storage `ref`, whose meta information
was read before the loop (`it`). `deleteFromCollection` is the method of the same name of
the component interface, which is not among the sources. The send on the sibling-cache
channel appends to `cacheCh`. -/
def ComponentCollection.opStep (deleteFromCollection : IComponent → IComponentSet → IComponentSet)
    (c : ComponentCollection) (ref it : Nat) (task : opTask) (addr : Nat) :
    Option ComponentCollection :=
  let com : IComponent := { task.com with intType := it, owner := task.target }
  let t := com.typ
  match task.op with
  | .CollectionOperateAdd =>
    let c1 : ComponentCollection := { c with collections :=
      { c.collections with sets := c.collections.sets.modify com.addToCollection ref } }
    match com.kind with
    | .ComponentTypeNormal => some c1
    | .ComponentTypeDisposable => c1.disposableTemp com t addr
    | .ComponentTypeFreeDisposable => c1.disposableTemp com t addr
    | .ComponentTypeFree => some c1
  | .CollectionOperateDelete =>
    let c1 : ComponentCollection := { c with collections :=
      { c.collections with sets := c.collections.sets.modify (deleteFromCollection com) ref } }
    match com.kind with
    | .ComponentTypeNormal | .ComponentTypeDisposable =>
      some { c1 with cacheCh := c1.cacheCh ++ [{ target := task.target, it := it, op := 2 }] }
    | _ => some c1
  | .CollectionOperateNone => some c

/-- The loop `for task := taskList.head; task != nil; task = task.next` of `opExecute`;
`addr j` is the stack address hashed by `disposableTemp` in round `j`. -/
def ComponentCollection.opLoop (deleteFromCollection : IComponent → IComponentSet → IComponentSet)
    (ref it : Nat) : List opTask → (Nat → Nat) → ComponentCollection →
    Option ComponentCollection
  | [], _, c => some c
  | task :: rest, addr, c =>
    match c.opStep deleteFromCollection ref it task (addr 0) with
    | none => none
    | some c1 => opLoop deleteFromCollection ref it rest (fun j => addr (j + 1)) c1

/-- Go `(*ComponentCollection).opExecute`. A `nil` collection, or a pointer to no
storage, panics at `collection.GetElementMeta()`. Returning the tasks to the pool and
resetting the list leave the collection as it is. -/
def ComponentCollection.opExecute (deleteFromCollection : IComponent → IComponentSet → IComponentSet)
    (c : ComponentCollection) (taskList : opTaskList) (collection : Option Nat)
    (addr : Nat → Nat) : Option ComponentCollection :=
  match collection with
  | none => none
  | some ref =>
    match c.collections.deref ref with
    | none => none
    | some set =>
      let elementMeta := set.elementMeta
      c.opLoop deleteFromCollection ref elementMeta.it taskList addr

/-- The states of an `UnorderedContainer` of element size `unit` that calls of `Add` and
`Remove` lead to from `NewContainer unit`. For an `Add`, the run time hands out a
non-nil address, the appended buffer and the address one past its end lie inside the
64-bit address space, and the element counter stays an `int`. A `Remove` that panics
leads nowhere. -/
inductive Reachable (unit : Nat) : UnorderedContainer → Prop
  | init : Reachable unit (NewContainer unit)
  | add (p : UnorderedContainer) (mem : Nat → Nat) (addr newCap : Nat) :
      Reachable unit p → 0 < addr → addr + (p.buf.length + p.unit) < 2 ^ 64 →
      p.len + 1 < 2 ^ 63 → Reachable unit (p.Add mem addr newCap).2
  | remove (p p1 : UnorderedContainer) (idx : Int) :
      Reachable unit p → p.Remove idx = some p1 → Reachable unit p1

/-- The keys of a shard or a map. -/
def keys {V : Type} (m : List (RType × V)) : List RType :=
  m.map Prod.fst

/-- Invariant of a `SparseComponentCollection`: every index stored in the map `m` is a
position of `sets`. -/
def SparseComponentCollection.WF (s : SparseComponentCollection) : Prop :=
  ∀ e ∈ s.m, 0 ≤ e.2 ∧ e.2 < s.sets.length

/-- Invariant of a `ComponentCollection`, set up by `NewComponentCollection` and kept by
`operate`, `getTempTasks` and `opExecute`: `bucket + 1` is a power of two below `2 ^ 63`,
there are `bucket + 1` locks, shards and `once` sets, the keys of every shard are
distinct, and the sparse collection is well formed. -/
def ComponentCollection.WF (c : ComponentCollection) : Prop :=
  (∃ i, i < 63 ∧ c.bucket + 1 = 2 ^ i) ∧
  (c.locks.length : Int) = c.bucket + 1 ∧
  (c.opLog.length : Int) = c.bucket + 1 ∧
  (c.once.length : Int) = c.bucket + 1 ∧
  (∀ sh ∈ c.opLog, (keys sh).Nodup) ∧
  c.collections.WF

/-- One call of `operate`: its arguments and the stack address it hashes. -/
structure Submit where
  op : CollectionOperate
  entity : Int
  component : IComponent
  addr : Nat
  deriving DecidableEq, Repr

/-- The pending operation that `operate` makes of its arguments. -/
def Submit.task (s : Submit) : opTask :=
  { target := s.entity, com := s.component, op := s.op }

/-- The `switch` that `operate` and `disposableTemp` open with, as a function of the
component kind, the entity and the hashed stack address. -/
def ComponentCollection.hashOf (c : ComponentCollection) (kind : ComponentType) (entity : Int)
    (addr : Nat) : Int :=
  match kind with
  | .ComponentTypeFree | .ComponentTypeFreeDisposable => and64 (int64 addr) c.bucket
  | .ComponentTypeNormal | .ComponentTypeDisposable => and64 (int64 entity) c.bucket

/-- The part of `operate` after the `switch`: the new operation goes to the end of the
list of `typ` in shard `hash`. -/
def ComponentCollection.appendAt (c : ComponentCollection) (hash : Int) (typ : RType)
    (newOpt : opTask) : Option ComponentCollection :=
  match sliceIndex hash c.opLog.length, sliceIndex hash c.locks.length with
  | some h, some _ =>
    let b := c.opLog.getD h []
    let tl : opTaskList := (b.lookup typ).getD []
    some { c with opLog := c.opLog.set h (mapSet b typ (tl.Append newOpt)) }
  | _, _ => none

/-- The part of `disposableTemp` after the `switch`: `typ` enters the set `once[hash]`. -/
def ComponentCollection.markOnce (c : ComponentCollection) (hash : Int) (typ : RType) :
    Option ComponentCollection :=
  match sliceIndex hash c.locks.length, sliceIndex hash c.once.length with
  | some _, some h =>
    let m := c.once.getD h []
    if typ ∈ m then some c else some { c with once := c.once.set h (m ++ [typ]) }
  | _, _ => none

/-- The shard `operate` picks for a submission, as a position of `opLog`. -/
def ComponentCollection.shardOf (c : ComponentCollection) (s : Submit) : Nat :=
  (c.hashOf s.component.kind s.entity s.addr).toNat

/-- What holds of a container in every reachable state: the counter is a non-negative
`int`, the buffer holds exactly `len` elements, and once an element was added `head` is
the non-nil address of a buffer that lies inside the address space. -/
def UnorderedContainer.Inv (p : UnorderedContainer) : Prop :=
  0 ≤ p.len ∧ p.len < 2 ^ 63 ∧ p.buf.length = p.len.toNat * p.unit ∧
  (0 < p.len → 0 < p.head ∧ p.head + p.buf.length < 2 ^ 64)

/-- The operations pending for type `t` in shard `i`. -/
def ComponentCollection.pending (c : ComponentCollection) (i : Nat) (t : RType) : opTaskList :=
  ((c.opLog.getD i []).lookup t).getD []

/-- Type `t` is named by the `once` set of some shard. -/
def ComponentCollection.inOnce (c : ComponentCollection) (t : RType) : Prop :=
  ∃ sh ∈ c.once, t ∈ sh

/-- The storage behind the pointer `ref` exists and holds no element. -/
def ComponentCollection.cleared (c : ComponentCollection) (ref : Nat) : Prop :=
  (c.collections.deref ref).map IComponentSet.data = some []

/-- A sequence of `GetComponentMetaInfo` calls, one per type of the list and in its
order: the ids returned and the registry afterwards. -/
def componentMeta.registerAll : List RType → componentMeta → List Nat × componentMeta
  | [], c => ([], c)
  | t :: rest, c =>
    let r := c.GetComponentMetaInfo t
    let rs := registerAll rest r.2
    (r.1.it :: rs.1, rs.2)

/-- The cache events `opExecute` sends for a task list applied to a storage of type id
`it`: one `Set(target, it, 2)` per delete of a Normal or Disposable component, in list
order. -/
def deleteEvents (it : Nat) (taskList : List opTask) : List CacheOp :=
  (taskList.filter (fun task => task.op = .CollectionOperateDelete ∧
    (task.com.kind = .ComponentTypeNormal ∨ task.com.kind = .ComponentTypeDisposable))).map
    (fun task => { target := task.target, it := it, op := 2 })

/-! ## system.go -/

/-- Go `SystemState` with its seven constants, in the order of the `iota` block. -/
inductive SystemState where
  | SystemStateInvalid
  | SystemStateInit
  | SystemStateStart
  | SystemStatePause
  | SystemStateUpdate
  | SystemStateDestroy
  | SystemStateDestroyed
  deriving DecidableEq, Repr

/-- The `uint8` value of a state constant: its position in the `iota` block. -/
def SystemState.val : SystemState → Nat
  | .SystemStateInvalid => 0
  | .SystemStateInit => 1
  | .SystemStateStart => 2
  | .SystemStatePause => 3
  | .SystemStateUpdate => 4
  | .SystemStateDestroy => 5
  | .SystemStateDestroyed => 6

/-- The stage order of the life cycle
`Invalid < Init < Start < {Update, Pause} < Destroy < Destroyed`. -/
def SystemState.stage : SystemState → Nat
  | .SystemStateInvalid => 0
  | .SystemStateInit => 1
  | .SystemStateStart => 2
  | .SystemStatePause => 3
  | .SystemStateUpdate => 3
  | .SystemStateDestroy => 4
  | .SystemStateDestroyed => 5

/-- Modelled from the spec: the requirement interface is not among the sources. A
requirement names a component type (`Type()`) and an access mode, Read or Write. -/
structure IRequirement where
  typ : RType
  write : Bool
  deriving DecidableEq, Repr

/-- Modelled from the spec: the world type `ecsWorld` is not among the sources. A world
owns the component storage. -/
structure ecsWorld where
  components : ComponentCollection
  deriving DecidableEq, Repr

/-- An `IWorld` interface value: the nil interface, or an interface that holds a pointer
of type `*ecsWorld`, which may itself be the nil pointer. -/
inductive IWorld where
  | nil
  | ptr (w : Option ecsWorld)
  deriving DecidableEq, Repr

/-- Go `System[T]`, the fields that the methods below read or write: `requirements` (the
map, `none` being the nil map), `order` (a small integer), `world` (a pointer, `none`
being nil) and `state`. The event queues, the caches, the flags and the id are left out. -/
structure System where
  requirements : Option (List (RType × IRequirement))
  order : Nat
  world : Option ecsWorld
  state : SystemState
  deriving DecidableEq, Repr

/-- Go `(*System[T]).getState`. -/
def System.getState (s : System) : SystemState :=
  s.state

/-- Go `(*System[T]).setState`. -/
def System.setState (s : System) (state : SystemState) : System :=
  { s with state := state }

/-- Go `(*System[T]).isInitialized`: `s.state >= SystemStateInit`. -/
def System.isInitialized (s : System) : Bool :=
  s.state.val ≥ SystemState.SystemStateInit.val

/-- The loop of `setRequirements` over `rqs`: every requirement enters the map under its
type, and its type is looked up in the registry `ComponentMeta`. -/
def System.addRequirements : List IRequirement → List (RType × IRequirement) → componentMeta →
    List (RType × IRequirement) × componentMeta
  | [], m, reg => (m, reg)
  | value :: rest, m, reg =>
    let typ := value.typ
    addRequirements rest (mapSet m typ value) (reg.GetComponentMetaInfo typ).2

/-- Go `(*System[T]).setRequirements`, with the package registry `ComponentMeta` passed
in and out. -/
def System.setRequirements (s : System) (rqs : List IRequirement) (reg : componentMeta) :
    System × componentMeta :=
  if s.isInitialized then (s, reg)
  else
    let m0 := match s.requirements with
      | none => []
      | some m => m
    let r := System.addRequirements rqs m0 reg
    ({ s with requirements := some r.1 }, r.2)

/-- Go `(*System[T]).setOrder`. -/
def System.setOrder (s : System) (order : Nat) : System :=
  if s.isInitialized then s else { s with order := order }

/-- Go `(*System[T]).Order`. -/
def System.Order (s : System) : Nat :=
  s.order

/-- Go `(*System[T]).pause`. -/
def System.pause (s : System) : System :=
  if s.getState = .SystemStateUpdate then s.setState .SystemStatePause else s

/-- Go `(*System[T]).resume`. -/
def System.resume (s : System) : System :=
  if s.getState = .SystemStatePause then s.setState .SystemStateUpdate else s

/-- Go `(*System[T]).stop`: `s.getState() < SystemStateDestroy` compares the `uint8`
values. -/
def System.stop (s : System) : System :=
  if s.getState.val < SystemState.SystemStateDestroy.val then
    s.setState .SystemStateDestroy
  else s

/-- Go `(*System[T]).baseInit`. `ins` is the system itself seen through its interface, so
`ins.Order()` is `s.Order()`. The constants `OrderInvalid` and `OrderDefault` are not
among the sources and are parameters. `init` is the `Init` method of the system, when it
has one: user code, which may change the system and the registry in any way (a panic in
it is caught by `TryAndReport`). -/
def System.baseInit (s : System) (world : Option ecsWorld) (OrderInvalid OrderDefault : Nat)
    (init : Option (System × componentMeta → System × componentMeta))
    (reg : componentMeta) : System × componentMeta :=
  let s1 : System := { s with requirements := some [] }
  let s2 := if s1.Order = OrderInvalid then s1.setOrder OrderDefault else s1
  let s3 : System := { s2 with world := world }
  let r := match init with
    | some i => i (s3, reg)
    | none => (s3, reg)
  ({ r.1 with state := .SystemStateStart }, r.2)

/-- Go `(*System[T]).World`: the pointer field `s.world` converted to the interface type
`IWorld`. The conversion of a pointer, nil or not, gives an interface that holds it. -/
def System.World (s : System) : IWorld :=
  .ptr s.world

/-- Go `(*System[T]).Requirements`. -/
def System.Requirements (s : System) : Option (List (RType × IRequirement)) :=
  s.requirements

/-! ## collection_iter.go -/

/-- Modelled from the spec: the storage type `Collection[T, TP]` is not among the sources;
it is the typed storage `IComponentSet`, and `Len()` is the number of its elements. -/
def IComponentSet.Len (c : IComponentSet) : Int :=
  c.data.length

/-- Go `Iter[T, TP]`. `c` is the pointer to the collection (`none` is nil); `cur` points
at an element of `c.data` and is given by the position of the element (`none` is nil). -/
structure Iter where
  c : Option IComponentSet
  len : Int
  offset : Int
  cur : Option Nat
  deriving DecidableEq, Repr

/-- Go `EmptyIter`: `&Iter[T, TP]{}`, every field the zero value. -/
def EmptyIter : Iter :=
  { c := none, len := 0, offset := 0, cur := none }

/-- The Go expression `&(c.data[i])` for an `int` index: the pointer to the element, or a
panic (`none`) when `c` is nil or the index is out of range. -/
def elemPtr (c : Option IComponentSet) (i : Int) : Option Nat :=
  match c with
  | none => none
  | some col => if 0 ≤ i ∧ i < col.data.length then some i.toNat else none

/-- Go `NewIterator`. -/
def NewIterator (collection : IComponentSet) : Option Iter :=
  let iter : Iter := { c := some collection, len := collection.Len, offset := 0, cur := none }
  if iter.len ≠ 0 then
    match elemPtr (some collection) 0 with
    | none => none
    | some ptr => some { iter with cur := some ptr }
  else some iter

/-- Go `(*Iter).Empty`. -/
def Iter.Empty (i : Iter) : Bool :=
  if i.len = 0 then true else false

/-- Go `(*Iter).End`; `i.len-1` is computed as an `int`. -/
def Iter.End (i : Iter) : Bool :=
  if i.offset > int64 (i.len - 1) ∨ i.len = 0 then true else false

/-- Go `(*Iter).Begin`: the returned pointer and the iterator afterwards. -/
def Iter.Begin (i : Iter) : Option (Option Nat × Iter) :=
  if i.len ≠ 0 then
    match elemPtr i.c 0 with
    | none => none
    | some ptr => some (some ptr, { i with offset := 0, cur := some ptr })
  else some (i.cur, i)

/-- Go `(*Iter).Val`. -/
def Iter.Val (i : Iter) : Option Nat :=
  i.cur

/-- Go `(*Iter).Next`: the returned pointer and the iterator afterwards; `i.offset++`
wraps as an `int`. -/
def Iter.Next (i : Iter) : Option (Option Nat × Iter) :=
  let i1 : Iter := { i with offset := int64 (i.offset + 1) }
  if ¬ i1.End then
    match elemPtr i1.c i1.offset with
    | none => none
    | some ptr => some (some ptr, { i1 with cur := some ptr })
  else some (i1.cur, i1)

/-- The loop `for c := it.Begin(); !it.End(); c = it.Next() { body }` from its condition
on, `c` holding the last pointer returned: the pointers the body is run with, in order.
`none` is a panic, or more than `fuel` rounds. -/
def Iter.loop : Nat → Iter → Option Nat → Option (List (Option Nat))
  | 0, _, _ => none
  | fuel + 1, it, c =>
    if it.End then some []
    else
      match it.Next with
      | none => none
      | some (c1, it1) =>
        match loop fuel it1 c1 with
        | none => none
        | some rest => some (c :: rest)

/-- The whole loop over `NewIterator(collection)`. -/
def iterate (fuel : Nat) (collection : IComponentSet) : Option (List (Option Nat)) :=
  match NewIterator collection with
  | none => none
  | some it =>
    match it.Begin with
    | none => none
    | some (c, it1) => it1.loop fuel c

/-! ## direct_api.go -/

/-- The closure `setError` of `GetInterestedComponents`: with at least one error pointer
the first one is assigned the new error (given by its format string); the result is the
empty iterator. -/
def setError (outError : List (Option String)) (msg : String) :
    List (Option String) × Iter :=
  match outError with
  | [] => ([], EmptyIter)
  | _ :: rest => (some msg :: rest, EmptyIter)

/-- Go `GetInterestedComponents[T]` for the component type `typ` (`GetType[T]()`).
`outError` holds the values behind the error pointers passed; the result is their values
afterwards and the iterator returned, `none` being a panic. The method `getComponents` of
the world is not among the sources and is a parameter: it is called on the pointer held
by the interface `sys.World()` and returns the storage of the type (`some none` when
there is none), or panics. Calling it on the nil interface panics. -/
def GetInterestedComponents
    (getComponents : Option ecsWorld → RType → Option (Option IComponentSet))
    (sys : System) (typ : RType) (outError : List (Option String)) :
    Option (List (Option String) × Iter) :=
  if sys.getState = .SystemStateInvalid then some (setError outError "must init system first")
  else
    let found : Option IRequirement := match sys.Requirements with
      | none => none
      | some m => m.lookup typ
    match found with
    | none => some (setError outError "not require, typ:")
    | some _ =>
      if sys.World = IWorld.nil then some (setError outError "world is nil")
      else
        match sys.World with
        | .nil => none
        | .ptr w =>
          match getComponents w typ with
          | none => none
          | some none => some (outError, EmptyIter)
          | some (some c) =>
            match NewIterator c with
            | none => none
            | some it => some (outError, it)

/-! ## threadpool_worker.go -/

/-- Go `WORKER_ID_RANDOM`. -/
def WORKER_ID_RANDOM : Int := -1

/-- Modelled from the spec: the job type is not among the sources. A job is a function
(given by a tag) plus the affinity worker id `WorkerID`. -/
structure Job where
  WorkerID : Int
  tag : Nat
  deriving DecidableEq, Repr

/-- Modelled from the spec: the pool type is not among the sources. A pool is a fixed set
of `numWorkers` workers, each owning a personal job queue (`workerQueue[i].jobQueue`, the
jobs waiting in it), together with the global queue `jobQueue`. -/
structure Pool where
  numWorkers : Int
  workerQueue : List (List Job)
  jobQueue : List Job
  deriving DecidableEq, Repr

/-- What the `select` of `Worker.Start` received in one round: a job from the worker's
personal queue, a job from the global queue of the pool, or the stop signal. -/
inductive Received where
  | personal (job : Job)
  | global (job : Job)
  | stop
  deriving DecidableEq, Repr

/-- What the worker does with what it received: run the job, forward it to the personal
queue of worker `w` (and `continue`), or return. -/
inductive Handled where
  | executed (job : Job)
  | forwarded (w : Nat) (job : Job)
  | returned
  deriving DecidableEq, Repr

/-- One round of the loop of Go `(*Worker).Start`, given what the `select` received and
the pool: what the worker does and the pool afterwards. The send
`w.p.workerQueue[job.WorkerID].jobQueue <- job` puts the job at the end of that queue;
indexing `workerQueue` out of range is a panic (`none`). -/
def Worker.round (p : Pool) (r : Received) : Option (Handled × Pool) :=
  match r with
  | .personal job => some (.executed job, p)
  | .global job =>
    if job.WorkerID ≠ WORKER_ID_RANDOM then
      if job.WorkerID ≥ 0 ∧ job.WorkerID < p.numWorkers then
        match sliceIndex job.WorkerID p.workerQueue.length with
        | none => none
        | some w =>
          some (.forwarded w job,
            { p with workerQueue := p.workerQueue.modify (fun q => q ++ [job]) w })
      else some (.executed job, p)
    else some (.executed job, p)
  | .stop => some (.returned, p)

/-- The merge that the first loop of `getTempTasks` builds from the shards of the log. -/
def ComponentCollection.merged (c : ComponentCollection) : List (RType × opTaskList) :=
  c.opLog.foldl mergeShard []

/-- Invariant of a `SparseComponentCollection`: the map `m` sends distinct types to
distinct storages. `Add` gives every type the position after the last storage, so the
invariant holds of every collection built by `Add` calls. -/
def SparseComponentCollection.Inj (s : SparseComponentCollection) : Prop :=
  ∀ (t1 t2 : RType) (i : Int), s.m.lookup t1 = some i → s.m.lookup t2 = some i → t1 = t2

/-! ## container_with_id.go -/

/-- Assignment `m[k] = v` on a Go map with keys of any type. -/
def goMapSet {K V : Type} [DecidableEq K] (m : List (K × V)) (k : K) (v : V) : List (K × V) :=
  match m with
  | [] => [(k, v)]
  | (k1, v1) :: rest => if k1 = k then (k, v) :: rest else (k1, v1) :: goMapSet rest k v

/-- Go `delete(m, k)`. -/
def goMapDelete {K V : Type} [DecidableEq K] (m : List (K × V)) (k : K) : List (K × V) :=
  m.filter (fun e => e.1 ≠ k)

/-- Modelled from the spec: the embedded type `Container` is not among the sources; only
its fields `buf`, `len` and `memberSize` are seen, in `NewContainerWithId`. It is the
dense array of the spec, with append, swap-remove and indexed read. The field `len` is
the position of the last element: `NewContainerWithId` starts it at `-1`, and
`ContainerWithId.add` records `p.len` as the position of the element just added. -/
structure Container where
  buf : List Nat
  len : Int
  memberSize : Nat
  deriving DecidableEq, Repr

/-- Modelled from the spec: `append` puts the `memberSize` bytes behind the pointer at the
end and returns the position of the new element with a pointer to it; a pointer to an
element is given by the position of the element. -/
def Container.add (c : Container) (mem : Nat → Nat) : (Int × Option Nat) × Container :=
  let c1 : Container := { c with buf := c.buf ++ bytesAt mem c.memberSize, len := int64 (c.len + 1) }
  ((c1.len, some c1.len.toNat), c1)

/-- Modelled from the spec: `removeAt` swaps the last element into position `idx` and
truncates; an index out of range is a no-op. -/
def Container.remove (c : Container) (idx : Int) : Container :=
  if idx < 0 ∨ idx > c.len then c
  else
    let last := c.len.toNat * c.memberSize
    let lo := idx.toNat * c.memberSize
    { c with buf := (copyInto c.buf lo (lo + c.memberSize) (c.buf.drop last)).take last,
             len := int64 (c.len - 1) }

/-- Modelled from the spec: indexed read, a pointer to the element at `idx`, or nil
(`none`) when there is no such element. -/
def Container.get (c : Container) (idx : Int) : Option Nat :=
  if idx < 0 ∨ idx > c.len then none else some idx.toNat

/-- The bytes of the element a pointer points at. -/
def Container.read (c : Container) (ptr : Nat) : List Nat :=
  (c.buf.drop (ptr * c.memberSize)).take c.memberSize

/-- Go `ContainerWithId`: the embedded `Container` and the two maps. -/
structure ContainerWithId where
  Container : Ecs.Container
  id2idx : List (Nat × Int)
  idx2id : List (Int × Nat)
  deriving DecidableEq, Repr

/-- Go `NewContainerWithId`. -/
def NewContainerWithId (size : Nat) : ContainerWithId :=
  { Container := { buf := [], len := -1, memberSize := size }
    idx2id := []
    id2idx := [] }

/-- Go `(*ContainerWithId).add`; `id` is the variadic argument. The result is the
returned index, the returned pointer and the container afterwards. -/
def ContainerWithId.add (p : ContainerWithId) (mem : Nat → Nat) (id : List Nat) :
    (Int × Option Nat) × ContainerWithId :=
  let found : Bool :=
    match id with
    | [] => false
    | id0 :: _ => (p.id2idx.lookup id0).isSome
  if found then ((0, none), p)
  else
    let r := p.Container.add mem
    let p1 : ContainerWithId := { p with Container := r.2 }
    match id with
    | [] => (r.1, p1)
    | id0 :: _ =>
      (r.1, { p1 with id2idx := goMapSet p1.id2idx id0 p1.Container.len,
                      idx2id := goMapSet p1.idx2id p1.Container.len id0 })

/-- Go `(*ContainerWithId).remove`. Reading a map at a missing key gives the zero value. -/
def ContainerWithId.remove (p : ContainerWithId) (idx : Int) : ContainerWithId :=
  if idx < 0 ∨ idx ≥ p.Container.len then p
  else
    let id2idx1 := goMapSet p.id2idx ((p.idx2id.lookup p.Container.len).getD 0) idx
    let id2idx2 := goMapDelete id2idx1 ((p.idx2id.lookup idx).getD 0)
    let idx2id1 := goMapSet p.idx2id idx ((p.idx2id.lookup p.Container.len).getD 0)
    let idx2id2 := goMapDelete idx2id1 p.Container.len
    { Container := p.Container.remove idx, id2idx := id2idx2, idx2id := idx2id2 }

/-- Go `(*ContainerWithId).removeById`. -/
def ContainerWithId.removeById (p : ContainerWithId) (id : Nat) : ContainerWithId :=
  match p.id2idx.lookup id with
  | none => p
  | some idx => p.remove idx

/-- Go `(*ContainerWithId).get`. -/
def ContainerWithId.get (p : ContainerWithId) (idx : Int) : Option Nat :=
  p.Container.get idx

/-- Go `(*ContainerWithId).getById`. -/
def ContainerWithId.getById (p : ContainerWithId) (id : Nat) : Option Nat :=
  match p.id2idx.lookup id with
  | none => none
  | some idx => p.Container.get idx

/-! ### Concrete inputs -/

/-- A container of one-byte elements after `Add(&7)`, its buffer at `0xc000012000`. -/
def exampleContainer : UnorderedContainer :=
  ((NewContainer 1).Add (fun _ => 7) 824633794560 1).2

/-- The collection `NewComponentCollection` makes for the configured count 2: four
shards. -/
def exampleCollection : ComponentCollection :=
  { collections := NewSparseComponentCollection
    cacheCh := []
    bucket := 3
    locks := [(), (), (), ()]
    opLog := [[], [], [], []]
    once := [[], [], [], []] }

/-- A component of type `t` and kind `kind` with data `payload`, not yet owned. -/
def exampleComponent (t : RType) (kind : ComponentType) (payload : Nat) : IComponent :=
  { typ := t, kind := kind, owner := 0, intType := 0, payload := payload }

/-- A `newCollection` method: an empty storage for the type of the component, with the
type id `typ % 65535`. -/
def exampleNewCollection (com : IComponent) : IComponentSet :=
  { elementType := com.typ, elementMeta := { it := com.typ % 65535 }, data := [] }

/-- The four-shard collection with a storage registered for type 8 under type id 8,
holding one element. -/
def exampleStored : ComponentCollection :=
  { exampleCollection with
    collections :=
      { m := [(8, 0)]
        indices := [0, 0, 0, 0, 0, 0, 0, 0, 0]
        sets := [{ elementType := 8, elementMeta := { it := 8 },
                   data := [exampleComponent 8 .ComponentTypeDisposable 1] }] } }

/-- A system in state Start that requires type 7 and whose world pointer is nil. -/
def exampleSystem : System :=
  { requirements := some [(7, { typ := 7, write := false })]
    order := 0
    world := none
    state := .SystemStateStart }

/-- A storage of type 1 holding three components. -/
def exampleSet : IComponentSet :=
  { elementType := 1
    elementMeta := { it := 1 }
    data := [exampleComponent 1 .ComponentTypeNormal 10,
             exampleComponent 1 .ComponentTypeNormal 20,
             exampleComponent 1 .ComponentTypeNormal 30] }

/-- A pool of two workers with empty queues. -/
def examplePool : Pool :=
  { numWorkers := 2, workerQueue := [[], []], jobQueue := [] }

/-- An Add followed by a Delete of a Normal component of type 8 for entity 1. -/
def exampleTasks : List opTask :=
  [{ target := 1, com := exampleComponent 8 .ComponentTypeNormal 2,
     op := .CollectionOperateAdd },
   { target := 1, com := exampleComponent 8 .ComponentTypeNormal 2,
     op := .CollectionOperateDelete }]

/-- A container of one-byte elements after `add(&7, 5)`: one element, of id 5. -/
def exampleWithId : ContainerWithId :=
  ((NewContainerWithId 1).add (fun _ => 7) [5]).2

/-- The container after a second call `add(&9, 6)`: two elements, of ids 5 and 6. -/
def exampleWithId2 : ContainerWithId :=
  (exampleWithId.add (fun _ => 9) [6]).2

/-- The four-shard collection with storages registered for the types 7 and 8, the type 8
named by the `once` set of shard 1. -/
def exampleTwoTypes : ComponentCollection :=
  { exampleCollection with
    collections :=
      { m := [(7, 0), (8, 1)]
        indices := [0, 0, 0, 0, 0, 0, 0, 0, 1]
        sets := [{ elementType := 7, elementMeta := { it := 7 },
                   data := [exampleComponent 7 .ComponentTypeNormal 1] },
                 { elementType := 8, elementMeta := { it := 8 },
                   data := [exampleComponent 8 .ComponentTypeDisposable 1] }] }
    once := [[], [8], [], []] }

/-! ## Theorems -/

/-- The source never stores into `c.types`: a call leaves the map as it is. -/
theorem GetComponentMetaInfo_types (c : componentMeta) (typ : RType) :
    (c.GetComponentMetaInfo typ).2.types = c.types := by
  unfold componentMeta.GetComponentMetaInfo
  cases h : c.types.lookup typ <;> simp

/-- C1, evaluated on the code: starting from the package variable `ComponentMeta`, the
first call `GetComponentMetaInfo(t)` returns id 1 and the second call, for the same type,
returns id 2 and advances the counter to 2; the id of a type is not stable. -/
theorem GetComponentMetaInfo_second_call_new_id :
    ((ComponentMeta.GetComponentMetaInfo 0).1.it = 1 ∧
      (ComponentMeta.GetComponentMetaInfo 0).2.seq = 1) ∧
    (((ComponentMeta.GetComponentMetaInfo 0).2.GetComponentMetaInfo 0).1.it = 2 ∧
      ((ComponentMeta.GetComponentMetaInfo 0).2.GetComponentMetaInfo 0).2.seq = 2) := by
  decide

/-- C2, evaluated on the code: a container of one-byte elements holding `[7, 9]`, its
buffer at address `0xc000012008` after the second `Add`. `Remove(0)` panics on the slice expression, whose bounds
are computed from the address in `head`; and with `head = 0` the call only lowers the
counter: the buffer keeps both bytes and position 0 still holds 7, not the last element. -/
theorem Remove_not_swap_remove :
    ((((NewContainer 1).Add (fun _ => 7) 824633794560 1).2.Add
        (fun _ => 9) 824633794568 8).2.Remove 0 = none) ∧
    (UnorderedContainer.Remove
        { buf := [7, 9], bufCap := 8, len := 2, unit := 1, head := 0 } 0 =
      some { buf := [7, 9], bufCap := 8, len := 1, unit := 1, head := 0 }) := by
  decide

/-! ### UnorderedContainer: what `Add` and `Get` do in reachable states -/

theorem int64_eq_self (x : Int) (h1 : -2 ^ 63 ≤ x) (h2 : x < 2 ^ 63) : int64 x = x := by
  unfold int64
  omega

theorem uintptr_eq_toNat (x : Int) (h1 : 0 ≤ x) (h2 : x < 2 ^ 64) : uintptr x = x.toNat := by
  unfold uintptr
  rw [Int.emod_eq_of_lt h1 h2]

theorem bytesAt_length (mem : Nat → Nat) (unit : Nat) : (bytesAt mem unit).length = unit := by
  simp [bytesAt]

/-- In a state that satisfies the invariant, `Remove` with an index in range panics: the
end offset `head + len * unit` lies beyond the buffer. -/
theorem Remove_in_range_none (p : UnorderedContainer) (hp : p.Inv) (idx : Int)
    (h0 : 0 ≤ idx) (h1 : idx < p.len) : p.Remove idx = none := by
  obtain ⟨hl0, hl1, hbuf, hhead⟩ := hp
  obtain ⟨hh, hw⟩ := hhead (by omega)
  have hlen : uintptr p.len = p.len.toNat := uintptr_eq_toNat _ hl0 (by omega)
  have hend : (p.head + uintptr p.len * p.unit) % 2 ^ 64 = p.head + p.buf.length := by
    rw [hlen, ← hbuf]
    exact Nat.mod_eq_of_lt hw
  unfold UnorderedContainer.Remove
  rw [if_neg (by omega)]
  simp only [hend]
  split
  · rfl
  · rw [if_pos (by omega)]

theorem Reachable_Inv (unit : Nat) (p : UnorderedContainer) (h : Reachable unit p) :
    p.Inv ∧ p.unit = unit := by
  induction h with
  | init => simp [UnorderedContainer.Inv, NewContainer]
  | add p mem addr newCap _ ha hw hl ih =>
    obtain ⟨⟨hl0, hl1, hbuf, _⟩, hu⟩ := ih
    have hlen : int64 (p.len + 1) = p.len + 1 := int64_eq_self _ (by omega) hl
    refine ⟨⟨?_, ?_, ?_, ?_⟩, hu⟩
    · simp only [UnorderedContainer.Add, hlen]; omega
    · simp only [UnorderedContainer.Add, hlen]; exact hl
    · simp only [UnorderedContainer.Add, hlen, List.length_append, bytesAt_length, hbuf]
      have : (p.len + 1).toNat = p.len.toNat + 1 := by omega
      rw [this, Nat.add_mul, Nat.one_mul]
    · intro _
      simp only [UnorderedContainer.Add, List.length_append, bytesAt_length]
      exact ⟨ha, hw⟩
  | remove p p1 idx _ hr ih =>
    by_cases hin : 0 ≤ idx ∧ idx < p.len
    · rw [Remove_in_range_none p ih.1 idx hin.1 hin.2] at hr
      exact absurd hr (by simp)
    · have : p.Remove idx = some p := by
        unfold UnorderedContainer.Remove
        rw [if_pos (by omega)]
      rw [this] at hr
      cases hr
      exact ih

/-- Under the invariant, the element seen at an index in range is the slice of the
buffer that starts at `idx * unit`. -/
theorem elem_eq_slice (p : UnorderedContainer) (hp : p.Inv) (j : Int)
    (h0 : 0 ≤ j) (h1 : j < p.len) :
    p.elem j = some ((p.buf.drop (j.toNat * p.unit)).take p.unit) := by
  obtain ⟨hl0, hl1, hbuf, hhead⟩ := hp
  obtain ⟨hh, hw⟩ := hhead (by omega)
  have hj : uintptr j = j.toNat := uintptr_eq_toNat _ h0 (by omega)
  have hmul : j.toNat * p.unit + p.unit ≤ p.buf.length := by
    rw [hbuf]
    calc j.toNat * p.unit + p.unit = (j.toNat + 1) * p.unit := by
          rw [Nat.add_mul, Nat.one_mul]
      _ ≤ p.len.toNat * p.unit := Nat.mul_le_mul_right _ (by omega)
  have hmod : (p.head + j.toNat * p.unit) % 2 ^ 64 = p.head + j.toNat * p.unit :=
    Nat.mod_eq_of_lt (by omega)
  unfold UnorderedContainer.elem UnorderedContainer.Get
  rw [if_neg (by omega), hj, hmod]
  simp only [Option.some_bind, UnorderedContainer.read]
  rw [if_pos ⟨by omega, by omega⟩]
  simp

/-- C3: in every state reachable from `NewContainer(unit)` by `Add` and `Remove` calls,
`Add(x)` returns the element count before the call as index, reading through the
returned pointer and through `Get` at that index yields the `unit` bytes of `x`, and
every smaller index yields the element it yielded before the call. -/
theorem Add_returns_appended_index (unit : Nat) (p : UnorderedContainer)
    (hr : Reachable unit p) (mem : Nat → Nat) (addr newCap : Nat) (ha : 0 < addr)
    (hw : addr + (p.buf.length + p.unit) < 2 ^ 64) (hl : p.len + 1 < 2 ^ 63) :
    (p.Add mem addr newCap).1.1 = p.len ∧
    (p.Add mem addr newCap).2.len = p.len + 1 ∧
    (p.Add mem addr newCap).2.Get p.len = some (p.Add mem addr newCap).1.2 ∧
    (p.Add mem addr newCap).2.read (p.Add mem addr newCap).1.2 = some (bytesAt mem unit) ∧
    (p.Add mem addr newCap).2.elem p.len = some (bytesAt mem unit) ∧
    ∀ j : Int, 0 ≤ j → j < p.len →
      (p.elem j).isSome ∧ (p.Add mem addr newCap).2.elem j = p.elem j := by
  have hinv := (Reachable_Inv unit p hr).1
  have hu := (Reachable_Inv unit p hr).2
  have hr1 : Reachable unit (p.Add mem addr newCap).2 := Reachable.add p mem addr newCap hr ha hw hl
  have hinv1 := (Reachable_Inv unit _ hr1).1
  obtain ⟨hl0, hl1, hbuf, _⟩ := hinv
  have hlen : int64 (p.len + 1) = p.len + 1 := int64_eq_self _ (by omega) hl
  have hlen1 : int64 (p.len + 1 - 1) = p.len := by
    rw [int64_eq_self _ (by omega) (by omega)]; omega
  have hA1 : (p.Add mem addr newCap).1.1 = p.len := by
    simp only [UnorderedContainer.Add, hlen, hlen1]
  have hA2 : (p.Add mem addr newCap).2.len = p.len + 1 := by
    simp only [UnorderedContainer.Add, hlen]
  have hAu : (p.Add mem addr newCap).2.unit = p.unit := rfl
  have hAb : (p.Add mem addr newCap).2.buf = p.buf ++ bytesAt mem p.unit := rfl
  have hG : (p.Add mem addr newCap).2.Get p.len = some (p.Add mem addr newCap).1.2 := by
    unfold UnorderedContainer.Get
    rw [if_neg (by rw [hA2]; omega)]
    simp only [UnorderedContainer.Add, hlen, hlen1]
  have hnew : (p.Add mem addr newCap).2.elem p.len = some (bytesAt mem unit) := by
    rw [elem_eq_slice _ hinv1 p.len hl0 (by rw [hA2]; omega), hAu, hAb, ← hbuf]
    simp [bytesAt_length, hu]
  refine ⟨hA1, hA2, hG, ?_, hnew, ?_⟩
  · have := hnew
    unfold UnorderedContainer.elem at this
    rw [hG] at this
    simpa using this
  · intro j hj0 hj1
    have hmul : j.toNat * p.unit + p.unit ≤ p.buf.length := by
      rw [hbuf]
      calc j.toNat * p.unit + p.unit = (j.toNat + 1) * p.unit := by
            rw [Nat.add_mul, Nat.one_mul]
        _ ≤ p.len.toNat * p.unit := Nat.mul_le_mul_right _ (by omega)
    rw [elem_eq_slice _ hinv1 j hj0 (by rw [hA2]; omega),
      elem_eq_slice p ⟨hl0, hl1, hbuf, by assumption⟩ j hj0 hj1, hAu, hAb]
    refine ⟨rfl, ?_⟩
    rw [List.drop_append_of_le_length (by omega), List.take_append_of_le_length]
    rw [List.length_drop]
    omega

/-! ### NewComponentCollection: the number of shards -/

theorem two_pow_le_of_le (i j : Nat) (h : i ≤ j) : (2 : Int) ^ i ≤ 2 ^ j := by
  have : (2 : Nat) ^ i ≤ 2 ^ j := Nat.pow_le_pow_right (by decide) h
  exact_mod_cast this

theorem int64_two_pow (i : Nat) (h : i ≤ 62) : int64 (2 ^ i) = 2 ^ i := by
  have h1 : (2 : Int) ^ i ≤ 2 ^ 62 := two_pow_le_of_le i 62 h
  have h2 : (0 : Int) < 2 ^ i := by positivity
  exact int64_eq_self _ (by omega) (by omega)

theorem int64_two_pow_nonpos (i : Nat) (h : 63 ≤ i) : int64 (2 ^ i) ≤ 0 := by
  obtain ⟨d, rfl⟩ : ∃ d, i = 63 + d := ⟨i - 63, by omega⟩
  have h2 : (0 : Int) < 2 ^ d := by positivity
  rw [pow_add]
  generalize (2 : Int) ^ d = q at h2
  unfold int64
  omega

/-- Whenever the loop of `NewComponentCollection` stops, whatever `k` and the fuel, the
bucket mask it yields is `2 ^ m - 1` for some `1 ≤ m ≤ 62`. -/
theorem bucketLoop_some (k : Int) :
    ∀ (fuel i : Nat) (b : Int), 1 ≤ i → (i ≤ 62 ∨ 2 ^ 62 ≤ int64 k) →
      bucketLoop k fuel i = some b → ∃ m, 1 ≤ m ∧ m ≤ 62 ∧ b + 1 = 2 ^ m := by
  intro fuel
  induction fuel with
  | zero => intro i b _ _ h; simp [bucketLoop] at h
  | succ fuel ih =>
    intro i b hi1 hi h
    unfold bucketLoop at h
    simp only at h
    by_cases hlt : int64 k < int64 (2 ^ i)
    · rw [if_pos hlt] at h
      by_cases hi62 : i ≤ 62
      · refine ⟨i, hi1, hi62, ?_⟩
        rw [int64_two_pow i hi62] at h
        cases h
        omega
      · have := int64_two_pow_nonpos i (by omega)
        rcases hi with hi | hi
        · omega
        · omega
    · rw [if_neg hlt] at h
      refine ih (i + 1) b (by omega) ?_ h
      by_cases hi62 : i < 62
      · left; omega
      · right
        rcases hi with hi | hi
        · have : i = 62 := by omega
          subst this
          rw [int64_two_pow 62 (le_refl _)] at hlt
          omega
        · exact hi

theorem int64_emod_two_pow (x : Int) (i : Nat) (hi : i < 64) : int64 x % 2 ^ i = x % 2 ^ i := by
  obtain ⟨q, hq⟩ : (2 : Int) ^ i ∣ 2 ^ 63 := pow_dvd_pow 2 (by omega)
  have hd : (2 : Int) ^ i ∣ 2 ^ 64 := pow_dvd_pow 2 (by omega)
  unfold int64
  rw [Int.sub_emod, Int.emod_emod_of_dvd _ hd, hq, Int.mul_emod_right, Int.sub_zero,
    Int.emod_emod, Int.add_mul_emod_self_left]

theorem and64_mask (x : Int) (i : Nat) (hi : i < 63) :
    and64 (int64 x) (2 ^ i - 1) = x % 2 ^ i := by
  have hpos : (0 : Int) < 2 ^ i := by positivity
  have hle : (2 : Int) ^ i ≤ 2 ^ 62 := two_pow_le_of_le i 62 (by omega)
  have hb : (((2 : Int) ^ i - 1) % 2 ^ 64).toNat = 2 ^ i - 1 := by
    rw [Int.emod_eq_of_lt (by omega) (by omega)]
    have : ((2 : Int) ^ i - 1) = ((2 ^ i - 1 : Nat) : Int) := by
      have : 1 ≤ 2 ^ i := Nat.one_le_two_pow
      push_cast [Nat.cast_sub this]
      rfl
    rw [this, Int.toNat_ofNat]
  have hx0 : 0 ≤ int64 x % 2 ^ 64 := Int.emod_nonneg _ (by norm_num)
  unfold and64
  rw [hb, Nat.and_pow_two_sub_one_eq_mod]
  have hlt : (((int64 x % 2 ^ 64).toNat % 2 ^ i : Nat) : Int) < 2 ^ i := by
    have : (int64 x % 2 ^ 64).toNat % 2 ^ i < 2 ^ i := Nat.mod_lt _ (by positivity)
    exact_mod_cast this
  have hc : (((int64 x % 2 ^ 64).toNat : Nat) : Int) = int64 x % 2 ^ 64 :=
    Int.toNat_of_nonneg hx0
  rw [int64_eq_self _ (by omega) (by omega), Int.natCast_mod, hc]
  simp only [Nat.cast_pow, Nat.cast_ofNat]
  rw [Int.emod_emod_of_dvd _ (pow_dvd_pow 2 (by omega)), int64_emod_two_pow x i (by omega)]

/-- In a well-formed collection the mask `& c.bucket` is the remainder modulo the shard
count, whatever the 64-bit value hashed. -/
theorem shard_hash (c : ComponentCollection) (hc : c.WF) (x : Int) :
    and64 (int64 x) c.bucket = x % (c.bucket + 1) ∧
    0 ≤ x % (c.bucket + 1) ∧ x % (c.bucket + 1) < c.bucket + 1 := by
  obtain ⟨⟨i, hi, hb⟩, _⟩ := hc
  have hpos : (0 : Int) < 2 ^ i := by positivity
  have hbk : c.bucket = 2 ^ i - 1 := by omega
  refine ⟨?_, ?_, ?_⟩
  · rw [hb, hbk]; exact and64_mask x i hi
  · exact Int.emod_nonneg _ (by omega)
  · exact Int.emod_lt_of_pos _ (by omega)

theorem sliceIndex_some (h : Int) (n : Nat) (h0 : 0 ≤ h) (h1 : h < n) :
    sliceIndex h n = some h.toNat := by
  unfold sliceIndex
  rw [if_pos ⟨h0, h1⟩]

theorem lookup_mapSet {V : Type} (m : List (RType × V)) (k k1 : RType) (v : V) :
    (mapSet m k v).lookup k1 = if k1 = k then some v else m.lookup k1 := by
  induction m with
  | nil =>
    by_cases h : k1 = k
    · simp [mapSet, List.lookup, h]
    · have : (k1 == k) = false := by simpa using h
      simp [mapSet, List.lookup, h, this]
  | cons e rest ih =>
    obtain ⟨k2, v2⟩ := e
    unfold mapSet
    by_cases h2 : k2 = k
    · subst h2
      rw [if_pos rfl]
      by_cases h : k1 = k2
      · simp [List.lookup, h]
      · have : (k1 == k2) = false := by simpa using h
        simp [List.lookup, h, this]
    · rw [if_neg h2]
      by_cases h : k1 = k2
      · subst h
        simp [List.lookup, h2]
      · have : (k1 == k2) = false := by simpa using h
        simp only [List.lookup, this, ih]

theorem keys_mapSet {V : Type} (m : List (RType × V)) (k : RType) (v : V) :
    keys (mapSet m k v) = if k ∈ keys m then keys m else keys m ++ [k] := by
  induction m with
  | nil => simp [mapSet, keys]
  | cons e rest ih =>
    obtain ⟨k2, v2⟩ := e
    unfold mapSet
    by_cases h2 : k2 = k
    · subst h2
      simp [keys]
    · rw [if_neg h2]
      have hne : ¬ k = k2 := fun h => h2 h.symm
      unfold keys at ih ⊢
      simp only [List.map_cons, ih, List.mem_cons, hne, false_or]
      split <;> simp

theorem nodup_keys_mapSet {V : Type} (m : List (RType × V)) (k : RType) (v : V)
    (h : (keys m).Nodup) : (keys (mapSet m k v)).Nodup := by
  rw [keys_mapSet]
  split
  · exact h
  · rename_i hk
    rw [List.nodup_append]
    exact ⟨h, List.nodup_singleton k, by
      intro a ha hb
      simp only [List.mem_singleton] at hb
      subst hb
      exact hk ha⟩

/-- Assigning to a key of one shard keeps a collection well formed. -/
theorem WF_set_opLog (c : ComponentCollection) (hc : c.WF) (h : Nat) (k : RType)
    (v : opTaskList) (hlt : h < c.opLog.length) :
    ComponentCollection.WF
      { c with opLog := c.opLog.set h (mapSet (c.opLog.getD h []) k v) } := by
  obtain ⟨hpow, hlocks, hlog, honce, hnd, hsp⟩ := hc
  refine ⟨hpow, hlocks, by simpa using hlog, honce, ?_, hsp⟩
  intro sh hsh
  simp only at hsh
  rcases List.mem_or_eq_of_mem_set hsh with hmem | heq
  · exact hnd sh hmem
  · subst heq
    apply nodup_keys_mapSet
    rw [List.getD_eq_getElem _ _ hlt]
    exact hnd _ (List.getElem_mem _)

theorem operate_eq (c : ComponentCollection) (op : CollectionOperate)
    (entity : Int) (component : IComponent) (addr : Nat) :
    c.operate op entity component addr =
      c.appendAt (c.hashOf component.kind entity addr) component.typ
        { target := entity, com := component, op := op } := rfl

theorem disposableTemp_eq (c : ComponentCollection) (com : IComponent) (typ : RType)
    (addr : Nat) :
    c.disposableTemp com typ addr = c.markOnce (c.hashOf com.kind com.owner addr) typ := rfl

theorem hashOf_range (c : ComponentCollection) (hc : c.WF) (kind : ComponentType)
    (entity : Int) (addr : Nat) :
    0 ≤ c.hashOf kind entity addr ∧ c.hashOf kind entity addr < c.bucket + 1 := by
  obtain ⟨he1, he2, he3⟩ := shard_hash c hc entity
  obtain ⟨ha1, ha2, ha3⟩ := shard_hash c hc (addr : Int)
  rw [← he1] at he2 he3
  rw [← ha1] at ha2 ha3
  cases kind
  · exact ⟨he2, he3⟩
  · exact ⟨he2, he3⟩
  · exact ⟨ha2, ha3⟩
  · exact ⟨ha2, ha3⟩

theorem appendAt_spec (c : ComponentCollection) (hc : c.WF) (hash : Int) (typ : RType)
    (newOpt : opTask) (h0 : 0 ≤ hash) (h1 : hash < c.bucket + 1) :
    hash.toNat < c.opLog.length ∧
    ∃ c1, c.appendAt hash typ newOpt = some c1 ∧ c1.WF ∧
      c1.bucket = c.bucket ∧ c1.collections = c.collections ∧ c1.once = c.once ∧
      c1.locks = c.locks ∧ c1.cacheCh = c.cacheCh ∧
      c1.opLog = c.opLog.set hash.toNat
        (mapSet (c.opLog.getD hash.toNat []) typ (c.pending hash.toNat typ ++ [newOpt])) := by
  have hlog := hc.2.2.1
  have hlocks := hc.2.1
  unfold ComponentCollection.appendAt
  rw [sliceIndex_some _ _ h0 (by omega), sliceIndex_some _ _ h0 (by omega)]
  exact ⟨by omega, _, rfl, WF_set_opLog c hc _ _ _ (by omega), rfl, rfl, rfl, rfl, rfl, rfl⟩

/-- What one call of `operate` does in a well-formed collection: it does not panic, it
appends the operation to the list of the component's type in the shard `shardOf`, and it
touches nothing else. -/
theorem operate_spec (c : ComponentCollection) (hc : c.WF) (s : Submit) :
    c.shardOf s < c.opLog.length ∧
    ∃ c1, c.operate s.op s.entity s.component s.addr = some c1 ∧ c1.WF ∧
      c1.bucket = c.bucket ∧ c1.collections = c.collections ∧ c1.once = c.once ∧
      c1.locks = c.locks ∧ c1.cacheCh = c.cacheCh ∧
      c1.opLog = c.opLog.set (c.shardOf s)
        (mapSet (c.opLog.getD (c.shardOf s) []) s.component.typ
          (c.pending (c.shardOf s) s.component.typ ++ [s.task])) := by
  obtain ⟨h0, h1⟩ := hashOf_range c hc s.component.kind s.entity s.addr
  rw [operate_eq]
  exact appendAt_spec c hc _ s.component.typ s.task h0 h1

/-- C9: in a well-formed collection with `N = bucket + 1` shards, `operate` on a Normal
or Disposable component picks the shard `int64(entity) & bucket`, which is `entity mod N`
(whatever 64-bit value the entity is), lies in `0 ≤ index < N` and so inside `opLog` and
`locks`; the call does not panic and changes that shard only. The index is a function
of the entity and `N` alone. -/
theorem operate_owned_shard (c : ComponentCollection) (hc : c.WF) (op : CollectionOperate)
    (entity : Int) (component : IComponent) (addr : Nat)
    (hk : component.kind = .ComponentTypeNormal ∨ component.kind = .ComponentTypeDisposable) :
    and64 (int64 entity) c.bucket = entity % (c.bucket + 1) ∧
    0 ≤ entity % (c.bucket + 1) ∧ entity % (c.bucket + 1) < c.bucket + 1 ∧
    entity % (c.bucket + 1) < c.opLog.length ∧ entity % (c.bucket + 1) < c.locks.length ∧
    ∃ c1, c.operate op entity component addr = some c1 ∧
      c1.opLog = c.opLog.set (entity % (c.bucket + 1)).toNat
        (mapSet (c.opLog.getD (entity % (c.bucket + 1)).toNat []) component.typ
          (c.pending (entity % (c.bucket + 1)).toNat component.typ ++
            [{ target := entity, com := component, op := op }])) := by
  obtain ⟨h1, h2, h3⟩ := shard_hash c hc entity
  obtain ⟨_, c1, ho, _, _, _, _, _, _, hlog⟩ :=
    operate_spec c hc { op := op, entity := entity, component := component, addr := addr }
  have hs : c.shardOf { op := op, entity := entity, component := component, addr := addr } =
      (entity % (c.bucket + 1)).toNat := by
    rw [← h1]
    rcases hk with hk | hk <;>
      simp only [ComponentCollection.shardOf, ComponentCollection.hashOf, hk]
  rw [hs] at hlog
  obtain ⟨_, hl1, hl2, _⟩ := hc
  exact ⟨h1, h2, h3, by omega, by omega, c1, ho, hlog⟩

/-! ### SparseComponentCollection -/

/-- C10, evaluated on the code: `Add(65535, s)` on a new sparse collection panics. The
sum `intType+1` wraps to 0 as a `uint16`, the index array stays empty and the assignment
`s.indices[65535]` is out of range. -/
theorem Add_max_typeId_panics :
    NewSparseComponentCollection.Add 65535
      { elementType := 7, elementMeta := { it := 65535 }, data := [] } = none := by
  decide

/-- For every type id below 65535, `Add` does not panic, registers the storage as the last
one of `sets`, and `Get` of that id then returns it. -/
theorem Add_some (s : SparseComponentCollection) (it : Nat) (set : IComponentSet)
    (hit : it < 65535) :
    ∃ s1, s.Add it set = some s1 ∧ s1.sets = s.sets ++ [set] ∧
      s1.m = mapSet s.m set.elementType (s.sets.length : Int) ∧
      s1.Get it = some (some s.sets.length) := by
  have hlen : it < (if it ≥ s.indices.length % 2 ^ 16 then
      growIndices s.indices ((it + 1) % 2 ^ 16) else s.indices).length := by
    split
    · simp only [growIndices, List.length_append, List.length_take, List.length_replicate]
      omega
    · omega
  have hadd : s.Add it set = some
      { m := mapSet s.m set.elementType (s.sets.length : Int),
        indices := (if it ≥ s.indices.length % 2 ^ 16 then
          growIndices s.indices ((it + 1) % 2 ^ 16) else s.indices).set it (s.sets.length : Int),
        sets := s.sets ++ [set] } := by
    unfold SparseComponentCollection.Add
    simp only [hlen, if_true]
  refine ⟨_, hadd, rfl, rfl, ?_⟩
  have hlen2 : (if it ≥ s.indices.length % 2 ^ 16 then
      growIndices s.indices ((it + 1) % 2 ^ 16) else s.indices).length % 2 ^ 16 > it := by
    split
    · simp only [growIndices, List.length_append, List.length_take, List.length_replicate]
      omega
    · omega
  unfold SparseComponentCollection.Get
  simp only [List.length_set]
  rw [if_neg (by omega)]
  simp only [List.get?_eq_getElem?, List.getElem?_set_self hlen]
  rw [if_neg (by omega)]
  simp [SparseComponentCollection.setAt]

/-! ### The drain: `getTempTasks` -/

theorem mem_of_lookup {V : Type} (m : List (RType × V)) (k : RType) (v : V)
    (h : m.lookup k = some v) : (k, v) ∈ m := by
  induction m with
  | nil => simp [List.lookup] at h
  | cons e rest ih =>
    obtain ⟨k2, v2⟩ := e
    by_cases hk : k = k2
    · subst hk
      simp only [List.lookup, beq_self_eq_true, Option.some.injEq] at h
      subst h
      exact List.mem_cons_self _ _
    · have : (k == k2) = false := by simpa using hk
      simp only [List.lookup, this] at h
      exact List.mem_cons_of_mem _ (ih h)

/-- A shard whose lists are all empty adds nothing to the merge. -/
theorem mergeShard_of_empty (combination shard : List (RType × opTaskList))
    (h : ∀ e ∈ shard, e.2 = []) : mergeShard combination shard = combination := by
  induction shard with
  | nil => rfl
  | cons e rest ih =>
    obtain ⟨k, l⟩ := e
    have hl : l = [] := h (k, l) (List.mem_cons_self _ _)
    subst hl
    unfold mergeShard
    simp only [opTaskList.Len, List.length_nil, if_true]
    exact ih (fun e he => h e (List.mem_cons_of_mem _ he))

/-- With a lock for every shard, the first loop of `getTempTasks` merges the shards one
after the other, in the order of their positions. -/
theorem drainShards_eq (locks : Nat) (shards : List (List (RType × opTaskList))) :
    ∀ (i : Nat) (combination : List (RType × opTaskList)), i + shards.length ≤ locks →
      drainShards locks i shards combination = some (shards.foldl mergeShard combination) := by
  induction shards with
  | nil => intro i combination _; rfl
  | cons sh rest ih =>
    intro i combination h
    simp only [List.length_cons] at h
    unfold drainShards
    rw [if_pos (by omega), ih (i + 1) _ (by omega)]
    rfl

theorem foldl_mergeShard_of_empty (shards : List (List (RType × opTaskList)))
    (h : ∀ sh ∈ shards, ∀ e ∈ sh, e.2 = []) (combination : List (RType × opTaskList)) :
    shards.foldl mergeShard combination = combination := by
  induction shards with
  | nil => rfl
  | cons sh rest ih =>
    simp only [List.foldl_cons]
    rw [mergeShard_of_empty combination sh (h sh (List.mem_cons_self _ _))]
    exact ih (fun sh1 hsh => h sh1 (List.mem_cons_of_mem _ hsh))

theorem GetByType_some (s : SparseComponentCollection) (hs : s.WF) (typ : RType) :
    (s.GetByType typ = some none ∧ s.m.lookup typ = none) ∨
    ∃ ref, s.GetByType typ = some (some ref) ∧ ref < s.sets.length ∧
      s.m.lookup typ = some (ref : Int) := by
  unfold SparseComponentCollection.GetByType
  cases h : s.m.lookup typ with
  | none => left; exact ⟨rfl, rfl⟩
  | some index =>
    right
    obtain ⟨h0, h1⟩ := hs _ (mem_of_lookup _ _ _ h)
    simp only at h0 h1
    refine ⟨index.toNat, ?_, by omega, by rw [Int.toNat_of_nonneg h0]⟩
    simp [SparseComponentCollection.setAt, h0, h1]

/-- C7: when no shard holds a pending operation (every list of every shard is empty),
`getTempTasks` returns no tasks, leaves the sparse collection (and the `once` sets, the
bucket mask and the sibling-cache channel) as they were, and leaves every shard with an
empty map; when the shards were empty maps already, the collection is unchanged. -/
theorem getTempTasks_empty_log (newCollection : IComponent → IComponentSet)
    (c : ComponentCollection) (hl : c.opLog.length ≤ c.locks.length)
    (he : ∀ sh ∈ c.opLog, ∀ e ∈ sh, e.2 = []) :
    ∃ c1, c.getTempTasks newCollection = some ([], c1) ∧
      c1.collections = c.collections ∧ c1.once = c.once ∧ c1.cacheCh = c.cacheCh ∧
      c1.bucket = c.bucket ∧ c1.locks = c.locks ∧ c1.opLog.length = c.opLog.length ∧
      (∀ sh ∈ c1.opLog, sh = []) ∧ ((∀ sh ∈ c.opLog, sh = []) → c1 = c) := by
  have hdrain := drainShards_eq c.locks.length c.opLog 0 [] (by omega)
  rw [foldl_mergeShard_of_empty c.opLog he] at hdrain
  refine ⟨{ c with opLog := c.opLog.map (fun _ => []), collections := c.collections }, ?_,
    rfl, rfl, rfl, rfl, rfl, by simp, ?_, ?_⟩
  · unfold ComponentCollection.getTempTasks
    rw [hdrain]
    rfl
  · intro sh hsh
    simp only [List.mem_map] at hsh
    obtain ⟨_, _, rfl⟩ := hsh
    rfl
  · intro hall
    have : c.opLog.map (fun _ => ([] : List (RType × opTaskList))) = c.opLog := by
      conv_rhs => rw [← List.map_id c.opLog]
      exact List.map_congr_left (fun sh hsh => by simp [hall sh hsh])
    simp only [this]

/-- Well-formedness only looks at the bucket mask, the lengths of `locks`, `opLog` and
`once`, the shards, the map of the sparse collection and the number of its storages. -/
theorem WF_of_fields (c c1 : ComponentCollection) (hc : c.WF) (hb : c1.bucket = c.bucket)
    (hl : c1.locks.length = c.locks.length) (hlog : c1.opLog = c.opLog)
    (ho : c1.once.length = c.once.length) (hm : c1.collections.m = c.collections.m)
    (hs : c1.collections.sets.length = c.collections.sets.length) : c1.WF := by
  obtain ⟨hpow, hlocks, hlg, honce, hnd, hsp⟩ := hc
  refine ⟨by rw [hb]; exact hpow, by rw [hl, hb]; exact hlocks, by rw [hlog, hb]; exact hlg,
    by rw [ho, hb]; exact honce, by rw [hlog]; exact hnd, ?_⟩
  intro e he
  rw [hm] at he
  rw [hs]
  exact hsp e he

theorem GetByType_congr (s s1 : SparseComponentCollection) (hm : s1.m = s.m)
    (hs : s1.sets.length = s.sets.length) (t : RType) : s1.GetByType t = s.GetByType t := by
  unfold SparseComponentCollection.GetByType SparseComponentCollection.setAt
  rw [hm, hs]

/-- The second half of `disposableTemp` in a well-formed collection: no panic, the type
is in a `once` set afterwards, and every type that was in one still is. -/
theorem markOnce_spec (c : ComponentCollection) (hc : c.WF) (hash : Int) (typ : RType)
    (h0 : 0 ≤ hash) (h1 : hash < c.bucket + 1) :
    ∃ c1, c.markOnce hash typ = some c1 ∧ c1.WF ∧ c1.collections = c.collections ∧
      c1.inOnce typ ∧ ∀ t, c.inOnce t → c1.inOnce t := by
  have hlocks := hc.2.1
  have honce := hc.2.2.2.1
  have hlt : hash.toNat < c.once.length := by omega
  unfold ComponentCollection.markOnce
  rw [sliceIndex_some _ _ h0 (by omega), sliceIndex_some _ _ h0 (by omega)]
  simp only
  by_cases hin : typ ∈ c.once.getD hash.toNat []
  · rw [if_pos hin]
    refine ⟨c, rfl, hc, rfl, ⟨_, ?_, hin⟩, fun t h => h⟩
    rw [List.getD_eq_getElem _ _ hlt]
    exact List.getElem_mem _
  · rw [if_neg hin]
    refine ⟨_, rfl, WF_of_fields c _ hc rfl rfl rfl (by simp) rfl rfl, rfl,
      ⟨_, List.mem_set _ _ hlt _, by simp⟩, ?_⟩
    rintro t ⟨sh, hsh, ht⟩
    obtain ⟨j, hj, rfl⟩ := List.getElem_of_mem hsh
    by_cases hjh : j = hash.toNat
    · subst hjh
      refine ⟨_, List.mem_set _ _ hlt _, ?_⟩
      rw [List.getD_eq_getElem _ _ hlt]
      exact List.mem_append_left _ ht
    · refine ⟨c.once[j], ?_, ht⟩
      have hj2 : j < (c.once.set hash.toNat (c.once.getD hash.toNat [] ++ [typ])).length := by
        simpa using hj
      have : (c.once.set hash.toNat (c.once.getD hash.toNat [] ++ [typ]))[j] = c.once[j] :=
        List.getElem_set_ne (fun e => hjh e.symm) hj2
      rw [← this]
      exact List.getElem_mem _

/-- One round of `opExecute` in a well-formed collection: no panic, the map and the
number of storages stay, no type leaves the `once` sets, and an add of a Disposable or
FreeDisposable component puts its type into one. -/
theorem opStep_spec (del : IComponent → IComponentSet → IComponentSet)
    (c : ComponentCollection) (hc : c.WF) (ref it : Nat) (task : opTask) (addr : Nat) :
    ∃ c1, c.opStep del ref it task addr = some c1 ∧ c1.WF ∧
      c1.collections.m = c.collections.m ∧
      c1.collections.sets.length = c.collections.sets.length ∧
      (∀ t, c.inOnce t → c1.inOnce t) ∧
      (task.op = .CollectionOperateAdd →
        (task.com.kind = .ComponentTypeDisposable ∨
          task.com.kind = .ComponentTypeFreeDisposable) → c1.inOnce task.com.typ) := by
  obtain ⟨target, ⟨typ, kind, owner, intType, payload⟩, op⟩ := task
  have hmod : ∀ f : IComponentSet → IComponentSet, ComponentCollection.WF
      { c with collections :=
        { c.collections with sets := c.collections.sets.modify f ref } } :=
    fun f => WF_of_fields c _ hc rfl rfl rfl rfl rfl (by simp)
  have hdisp : ∀ (f : IComponentSet → IComponentSet) (com : IComponent),
      ∃ c1, ComponentCollection.disposableTemp
          { c with collections :=
            { c.collections with sets := c.collections.sets.modify f ref } } com typ addr =
          some c1 ∧ c1.WF ∧ c1.collections.m = c.collections.m ∧
        c1.collections.sets.length = c.collections.sets.length ∧
        (∀ t, c.inOnce t → c1.inOnce t) ∧ c1.inOnce typ := by
    intro f com
    obtain ⟨h0, h1⟩ := hashOf_range _ (hmod f) com.kind com.owner addr
    obtain ⟨c1, hm, hc1, hcol, hin, hmono⟩ := markOnce_spec _ (hmod f) _ typ h0 h1
    refine ⟨c1, by rw [disposableTemp_eq]; exact hm, hc1, by rw [hcol], by rw [hcol]; simp,
      fun t ht => hmono t ht, hin⟩
  cases op
  · exact ⟨c, rfl, hc, rfl, rfl, fun t h => h, by intro h; cases h⟩
  · cases kind
    · exact ⟨_, rfl, hmod _, rfl, by simp, fun t h => h, by
        intro _ h; rcases h with h | h <;> cases h⟩
    · obtain ⟨c1, h1, h2, h3, h4, h5, h6⟩ := hdisp
        (IComponent.addToCollection ⟨typ, .ComponentTypeDisposable, target, it, payload⟩)
        ⟨typ, .ComponentTypeDisposable, target, it, payload⟩
      exact ⟨c1, h1, h2, h3, h4, h5, fun _ _ => h6⟩
    · exact ⟨_, rfl, hmod _, rfl, by simp, fun t h => h, by
        intro _ h; rcases h with h | h <;> cases h⟩
    · obtain ⟨c1, h1, h2, h3, h4, h5, h6⟩ := hdisp
        (IComponent.addToCollection ⟨typ, .ComponentTypeFreeDisposable, target, it, payload⟩)
        ⟨typ, .ComponentTypeFreeDisposable, target, it, payload⟩
      exact ⟨c1, h1, h2, h3, h4, h5, fun _ _ => h6⟩
  · cases kind
    · exact ⟨_, rfl, WF_of_fields c _ hc rfl rfl rfl rfl rfl (by simp), rfl, by simp,
        fun t h => h, by intro h; cases h⟩
    · exact ⟨_, rfl, WF_of_fields c _ hc rfl rfl rfl rfl rfl (by simp), rfl, by simp,
        fun t h => h, by intro h; cases h⟩
    · exact ⟨_, rfl, hmod _, rfl, by simp, fun t h => h, by intro h; cases h⟩
    · exact ⟨_, rfl, hmod _, rfl, by simp, fun t h => h, by intro h; cases h⟩

/-- The loop of `opExecute` in a well-formed collection: no panic, the map and the
number of storages stay, and the type of every Disposable or FreeDisposable component
added by the list is in a `once` set afterwards. -/
theorem opLoop_spec (del : IComponent → IComponentSet → IComponentSet) (ref it : Nat)
    (taskList : List opTask) :
    ∀ (addr : Nat → Nat) (c : ComponentCollection), c.WF →
      ∃ c1, c.opLoop del ref it taskList addr = some c1 ∧ c1.WF ∧
        c1.collections.m = c.collections.m ∧
        c1.collections.sets.length = c.collections.sets.length ∧
        (∀ t, c.inOnce t → c1.inOnce t) ∧
        ∀ task ∈ taskList, task.op = .CollectionOperateAdd →
          (task.com.kind = .ComponentTypeDisposable ∨
            task.com.kind = .ComponentTypeFreeDisposable) → c1.inOnce task.com.typ := by
  induction taskList with
  | nil => intro addr c hc; exact ⟨c, rfl, hc, rfl, rfl, fun t h => h, by simp⟩
  | cons task rest ih =>
    intro addr c hc
    obtain ⟨c1, h1, hc1, hm1, hs1, hmono1, hadd1⟩ := opStep_spec del c hc ref it task (addr 0)
    obtain ⟨c2, h2, hc2, hm2, hs2, hmono2, hadd2⟩ := ih (fun j => addr (j + 1)) c1 hc1
    refine ⟨c2, ?_, hc2, by rw [hm2, hm1], by rw [hs2, hs1],
      fun t h => hmono2 t (hmono1 t h), ?_⟩
    · unfold ComponentCollection.opLoop
      rw [h1]
      exact h2
    · intro tk htk hop hkind
      rcases List.mem_cons.mp htk with rfl | hmem
      · exact hmono2 _ (hadd1 hop hkind)
      · exact hadd2 tk hmem hop hkind

theorem cleared_modify_Clear (c : ComponentCollection) (ref0 : Nat) :
    let c1 : ComponentCollection := { c with collections :=
      { c.collections with sets := c.collections.sets.modify IComponentSet.Clear ref0 } }
    (∀ r, c.cleared r → c1.cleared r) ∧ (ref0 < c.collections.sets.length → c1.cleared ref0) := by
  intro c1
  have hget : ∀ r, c1.collections.deref r =
      (fun a => if ref0 = r then IComponentSet.Clear a else a) <$> c.collections.deref r := by
    intro r
    simp only [c1, SparseComponentCollection.deref, List.get?_eq_getElem?]
    exact List.getElem?_modify _ _ _ _
  refine ⟨?_, ?_⟩
  · intro r hr
    unfold ComponentCollection.cleared at hr ⊢
    rw [hget]
    cases hd : c.collections.deref r with
    | none => rw [hd] at hr; simp at hr
    | some a =>
      rw [hd] at hr
      simp only [Option.map_some', Option.some.injEq] at hr
      by_cases h : ref0 = r
      · simp [h, IComponentSet.Clear]
      · simp [h, hr]
  · intro hlt
    unfold ComponentCollection.cleared
    rw [hget]
    have : c.collections.deref ref0 = some (c.collections.sets[ref0]) := by
      simp [SparseComponentCollection.deref, List.getElem?_eq_getElem hlt]
    rw [this]
    simp [IComponentSet.Clear]

/-- `removeAllByType` in a collection with a well-formed sparse part: no panic, only
storages change and only by being cleared, and the storage registered for the type is
empty afterwards. -/
theorem removeAllByType_spec (c : ComponentCollection) (hs : c.collections.WF) (typ : RType) :
    ∃ c1, c.removeAllByType typ = some c1 ∧ c1.collections.m = c.collections.m ∧
      c1.collections.sets.length = c.collections.sets.length ∧ c1.once = c.once ∧
      c1.locks = c.locks ∧ c1.bucket = c.bucket ∧ c1.opLog = c.opLog ∧
      (∀ r, c.cleared r → c1.cleared r) ∧
      (∀ ref, c.collections.GetByType typ = some (some ref) → c1.cleared ref) := by
  unfold ComponentCollection.removeAllByType
  rcases GetByType_some c.collections hs typ with ⟨hg, _⟩ | ⟨ref0, hg, hlt, _⟩
  · rw [hg]
    exact ⟨c, rfl, rfl, rfl, rfl, rfl, rfl, rfl, fun r h => h, by intro ref h; cases h⟩
  · rw [hg]
    obtain ⟨h1, h2⟩ := cleared_modify_Clear c ref0
    refine ⟨_, rfl, rfl, by simp, rfl, rfl, rfl, rfl, h1, ?_⟩
    intro ref h
    cases h
    exact h2 hlt

theorem SparseWF_congr (s s1 : SparseComponentCollection) (hs : s.WF) (hm : s1.m = s.m)
    (hl : s1.sets.length = s.sets.length) : s1.WF := by
  intro e he
  rw [hm] at he
  rw [hl]
  exact hs e he

/-- The inner loop of `clearDisposable`: every type of the shard's set has its registered
storage cleared. -/
theorem removeTypes_spec (m : List RType) :
    ∀ c : ComponentCollection, c.collections.WF →
      ∃ c1, c.removeTypes m = some c1 ∧ c1.collections.m = c.collections.m ∧
        c1.collections.sets.length = c.collections.sets.length ∧ c1.once = c.once ∧
        c1.locks = c.locks ∧ c1.bucket = c.bucket ∧ c1.opLog = c.opLog ∧
        (∀ r, c.cleared r → c1.cleared r) ∧
        (∀ typ ∈ m, ∀ ref, c.collections.GetByType typ = some (some ref) → c1.cleared ref) := by
  induction m with
  | nil =>
    intro c _
    exact ⟨c, rfl, rfl, rfl, rfl, rfl, rfl, rfl, fun r h => h, by simp⟩
  | cons typ rest ih =>
    intro c hs
    obtain ⟨c1, h1, hm1, hl1, ho1, hk1, hb1, hg1, hmono1, hcl1⟩ := removeAllByType_spec c hs typ
    obtain ⟨c2, h2, hm2, hl2, ho2, hk2, hb2, hg2, hmono2, hcl2⟩ :=
      ih c1 (SparseWF_congr _ _ hs hm1 hl1)
    refine ⟨c2, ?_, by rw [hm2, hm1], by rw [hl2, hl1], by rw [ho2, ho1], by rw [hk2, hk1],
      by rw [hb2, hb1], by rw [hg2, hg1], fun r h => hmono2 r (hmono1 r h), ?_⟩
    · unfold ComponentCollection.removeTypes
      rw [h1]
      exact h2
    · intro t ht ref hreg
      rcases List.mem_cons.mp ht with rfl | hmem
      · exact hmono2 ref (hcl1 ref hreg)
      · exact hcl2 t hmem ref (by rw [GetByType_congr _ _ hm1 hl1]; exact hreg)

/-- The loop of `clearDisposable` from position `i` on: no panic; afterwards every `once`
set from `i` on is empty, and every type such a set named has its registered storage
cleared. -/
theorem clearLoop_spec :
    ∀ (todo i : Nat) (c : ComponentCollection), c.collections.WF →
      c.once.length ≤ c.locks.length → i + todo = c.once.length →
      ∃ c1, c.clearLoop todo i = some c1 ∧ c1.collections.m = c.collections.m ∧
        c1.collections.sets.length = c.collections.sets.length ∧
        (∀ sh ∈ c1.once, sh = [] ∨ ∃ j, j < i ∧ c.once[j]? = some sh) ∧
        (∀ r, c.cleared r → c1.cleared r) ∧
        (∀ j sh, i ≤ j → c.once[j]? = some sh → ∀ typ ∈ sh, ∀ ref,
          c.collections.GetByType typ = some (some ref) → c1.cleared ref) := by
  intro todo
  induction todo with
  | zero =>
    intro i c _ _ hi
    refine ⟨c, rfl, rfl, rfl, ?_, fun r h => h, ?_⟩
    · intro sh hsh
      obtain ⟨j, hj, rfl⟩ := List.getElem_of_mem hsh
      exact Or.inr ⟨j, by omega, List.getElem?_eq_getElem hj⟩
    · intro j sh hij hsome
      have := (List.getElem?_eq_some.mp hsome).1
      omega
  | succ todo ih =>
    intro i c hs hlocks hi
    have hilt : i < c.once.length := by omega
    obtain ⟨c1, h1, hm1, hl1, ho1, hk1, _, _, hmono1, hcl1⟩ := removeTypes_spec c.once[i] c hs
    obtain ⟨c2, h2, hm2, hl2, honce2, hmono2, hcl2⟩ :=
      ih (i + 1) { c1 with once := c1.once.set i [] } (SparseWF_congr _ _ hs hm1 hl1)
        (by simp only [List.length_set]; rw [ho1, hk1]; exact hlocks)
        (by simp only [List.length_set]; rw [ho1]; omega)
    refine ⟨c2, ?_, by rw [hm2]; exact hm1, by rw [hl2]; exact hl1, ?_,
      fun r h => hmono2 r (hmono1 r h), ?_⟩
    · unfold ComponentCollection.clearLoop
      rw [if_pos (by omega), List.get?_eq_getElem?, List.getElem?_eq_getElem hilt]
      simp only [h1]
      exact h2
    · intro sh hsh
      rcases honce2 sh hsh with h | ⟨j, hj, hjs⟩
      · exact Or.inl h
      · simp only [ho1, List.getElem?_set] at hjs
        by_cases hji : i = j
        · rw [if_pos hji, if_pos hilt] at hjs
          left
          cases hjs
          rfl
        · rw [if_neg hji] at hjs
          exact Or.inr ⟨j, by omega, hjs⟩
    · intro j sh hij hsome typ htyp ref hreg
      by_cases hji : j = i
      · subst hji
        have : sh = c.once[j] := by
          rw [List.getElem?_eq_getElem hilt] at hsome
          cases hsome
          rfl
        subst this
        exact hmono2 ref (hcl1 typ htyp ref hreg)
      · refine hcl2 j sh (by omega) ?_ typ htyp ref ?_
        · simp only [ho1, List.getElem?_set]
          rw [if_neg (fun e => hji e.symm)]
          exact hsome
        · have : ({ c1 with once := c1.once.set i [] } : ComponentCollection).collections =
              c1.collections := rfl
          rw [this, GetByType_congr _ _ hm1 hl1]
          exact hreg

/-- C6: in a well-formed collection, let `opExecute` apply a task list that contains an
Add of a component of type `t` and kind Disposable or FreeDisposable to the storage
registered for `t`, and let `clearDisposable` run afterwards. Neither call panics; after
`opExecute` some shard's `once` set names `t`; after `clearDisposable` the storage of `t`
is empty and no shard's `once` set names `t` (every `once` set is empty). -/
theorem disposable_cleared_after_frame (del : IComponent → IComponentSet → IComponentSet)
    (c : ComponentCollection) (hc : c.WF) (taskList : opTaskList) (ref : Nat) (t : RType)
    (addr : Nat → Nat) (hreg : c.collections.GetByType t = some (some ref))
    (hadd : ∃ task ∈ taskList, task.op = .CollectionOperateAdd ∧ task.com.typ = t ∧
      (task.com.kind = .ComponentTypeDisposable ∨
        task.com.kind = .ComponentTypeFreeDisposable)) :
    ∃ c1 c2, c.opExecute del taskList (some ref) addr = some c1 ∧ c1.inOnce t ∧
      c1.clearDisposable = some c2 ∧
      c2.collections.GetByType t = some (some ref) ∧
      (c2.collections.deref ref).map IComponentSet.data = some [] ∧
      (∀ sh ∈ c2.once, sh = []) ∧ ¬ c2.inOnce t := by
  have hlt : ref < c.collections.sets.length := by
    rcases GetByType_some c.collections hc.2.2.2.2.2 t with ⟨hg, _⟩ | ⟨r, hg, hr, _⟩
    · rw [hg] at hreg; cases hreg
    · rw [hg] at hreg; cases hreg; exact hr
  obtain ⟨c1, h1, hc1, hm1, hl1, _, hadd1⟩ :=
    opLoop_spec del ref (c.collections.sets[ref]).elementMeta.it taskList addr c hc
  obtain ⟨task, htask, hop, htyp, hkind⟩ := hadd
  have hin : c1.inOnce t := htyp ▸ hadd1 task htask hop hkind
  have hreg1 : c1.collections.GetByType t = some (some ref) := by
    rw [GetByType_congr _ _ hm1 hl1]; exact hreg
  obtain ⟨c2, h2, hm2, hl2, honce2, _, hcl2⟩ := clearLoop_spec c1.once.length 0 c1
    hc1.2.2.2.2.2 (by have := hc1.2.1; have := hc1.2.2.2.1; omega) (by omega)
  have hempty : ∀ sh ∈ c2.once, sh = [] := by
    intro sh hsh
    rcases honce2 sh hsh with h | ⟨j, hj, _⟩
    · exact h
    · omega
  obtain ⟨sh, hsh, htsh⟩ := hin
  obtain ⟨j, hj, rfl⟩ := List.getElem_of_mem hsh
  refine ⟨c1, c2, ?_, ⟨_, hsh, htsh⟩, h2, by rw [GetByType_congr _ _ hm2 hl2]; exact hreg1,
    hcl2 j _ (by omega) (List.getElem?_eq_getElem hj) t htsh ref hreg1, hempty, ?_⟩
  · unfold ComponentCollection.opExecute
    simp only [SparseComponentCollection.deref, List.get?_eq_getElem?,
      List.getElem?_eq_getElem hlt]
    exact h1
  · rintro ⟨sh2, hsh2, ht2⟩
    rw [hempty sh2 hsh2] at ht2
    simp at ht2

/-! ### The invariant holds of every new collection; the statements at concrete inputs -/

/-- Every collection `NewComponentCollection` returns is well formed, whatever the
configured count. -/
theorem NewComponentCollection_WF (fuel : Nat) (k : Int) (cc : ComponentCollection)
    (h : NewComponentCollection fuel k = some cc) : cc.WF := by
  unfold NewComponentCollection at h
  cases hb : bucketLoop k fuel 1 with
  | none => rw [hb] at h; cases h
  | some b =>
    rw [hb] at h
    obtain ⟨m, _, hm2, hm3⟩ := bucketLoop_some k fuel 1 b (le_refl _) (Or.inl (by omega)) hb
    have hpos : (0 : Int) < 2 ^ m := by positivity
    simp only at h
    rw [if_neg (by omega)] at h
    cases h
    have hN : (((b + 1).toNat : Nat) : Int) = b + 1 := Int.toNat_of_nonneg (by omega)
    refine ⟨⟨m, by omega, hm3⟩, by simp only [List.length_replicate]; exact hN,
      by simp only [List.length_replicate]; exact hN,
      by simp only [List.length_replicate]; exact hN, ?_, ?_⟩
    · intro sh hsh
      rw [List.eq_of_mem_replicate hsh]
      exact List.nodup_nil
    · intro e he
      simp [NewSparseComponentCollection] at he

theorem exampleCollection_eq : NewComponentCollection 64 2 = some exampleCollection := by
  decide

theorem exampleCollection_WF : exampleCollection.WF :=
  NewComponentCollection_WF 64 2 _ exampleCollection_eq

theorem exampleStored_WF : exampleStored.WF := by
  refine ⟨⟨2, by decide, by decide⟩, by decide, by decide, by decide, ?_, ?_⟩
  · intro sh hsh
    have : sh = [] := by
      simp only [exampleStored, exampleCollection, List.mem_cons, List.mem_singleton,
        List.not_mem_nil, or_false, or_self] at hsh
      exact hsh
    rw [this]
    exact List.nodup_nil
  · intro e he
    simp only [exampleStored, List.mem_singleton] at he
    subst he
    decide

theorem exampleContainer_reachable : Reachable 1 exampleContainer :=
  Reachable.add _ _ _ _ Reachable.init (by decide) (by decide) (by decide)

/-- C3 at a concrete input: the container holding `[7]`, reachable by one `Add`; the
second `Add(&9)` returns index 1, index 1 then yields `[9]` and index 0 still yields
what it yielded before, `[7]`. -/
theorem Add_returns_appended_index_witness :
    Reachable 1 exampleContainer ∧
    (exampleContainer.Add (fun _ => 9) 824633794568 8).1.1 = exampleContainer.len ∧
    (exampleContainer.Add (fun _ => 9) 824633794568 8).2.elem 1 = some [9] ∧
    exampleContainer.elem 0 = some [7] ∧
    (exampleContainer.Add (fun _ => 9) 824633794568 8).2.elem 0 = exampleContainer.elem 0 :=
  have h := Add_returns_appended_index 1 exampleContainer exampleContainer_reachable
    (fun _ => 9) 824633794568 8 (by decide) (by decide) (by decide)
  ⟨exampleContainer_reachable, h.1, h.2.2.2.2.1, by decide,
    (h.2.2.2.2.2 0 (by decide) (by decide)).2⟩

/-- C6 at a concrete input: an Add of a Disposable component of type 8 for entity 1,
applied to the storage registered for type 8. -/
theorem disposable_cleared_after_frame_witness :
    exampleStored.collections.GetByType 8 = some (some 0) ∧
    ∃ c1 c2, exampleStored.opExecute (fun _ s => s)
        [{ target := 1, com := exampleComponent 8 .ComponentTypeDisposable 2,
           op := .CollectionOperateAdd }] (some 0) (fun _ => 0) = some c1 ∧
      c1.inOnce 8 ∧ c1.clearDisposable = some c2 ∧
      c2.collections.GetByType 8 = some (some 0) ∧
      (c2.collections.deref 0).map IComponentSet.data = some [] ∧
      (∀ sh ∈ c2.once, sh = []) ∧ ¬ c2.inOnce 8 :=
  ⟨by decide,
    disposable_cleared_after_frame (fun _ s => s) exampleStored exampleStored_WF
      [{ target := 1, com := exampleComponent 8 .ComponentTypeDisposable 2,
         op := .CollectionOperateAdd }] 0 8 (fun _ => 0) (by decide)
      ⟨_, List.mem_cons_self _ _, rfl, rfl, Or.inl rfl⟩⟩

/-- C7 at a concrete input: the new four-shard collection, whose log is empty. -/
theorem getTempTasks_empty_log_witness :
    ∃ c1, exampleCollection.getTempTasks exampleNewCollection = some ([], c1) ∧
      c1.collections = exampleCollection.collections ∧ c1.once = exampleCollection.once ∧
      c1.cacheCh = exampleCollection.cacheCh ∧ c1.bucket = exampleCollection.bucket ∧
      c1.locks = exampleCollection.locks ∧
      c1.opLog.length = exampleCollection.opLog.length ∧
      (∀ sh ∈ c1.opLog, sh = []) ∧
      ((∀ sh ∈ exampleCollection.opLog, sh = []) → c1 = exampleCollection) :=
  getTempTasks_empty_log exampleNewCollection exampleCollection (by decide) (by decide)

/-- C9 at a concrete input: entity `-3` (as an `int64`) in the four-shard collection goes
to shard `-3 mod 4 = 1`. -/
theorem operate_owned_shard_witness :
    exampleCollection.WF ∧
    and64 (int64 (-3)) exampleCollection.bucket = (-3) % (exampleCollection.bucket + 1) ∧
    (0 : Int) ≤ (-3) % (exampleCollection.bucket + 1) ∧
    (-3) % (exampleCollection.bucket + 1) < exampleCollection.bucket + 1 ∧
    (-3) % (exampleCollection.bucket + 1) < exampleCollection.opLog.length ∧
    (-3) % (exampleCollection.bucket + 1) < exampleCollection.locks.length ∧
    ∃ c1, exampleCollection.operate .CollectionOperateAdd (-3)
        (exampleComponent 7 .ComponentTypeNormal 1) 0 = some c1 ∧
      c1.opLog = exampleCollection.opLog.set ((-3) % (exampleCollection.bucket + 1)).toNat
        (mapSet (exampleCollection.opLog.getD
            ((-3) % (exampleCollection.bucket + 1)).toNat []) 7
          (exampleCollection.pending ((-3) % (exampleCollection.bucket + 1)).toNat 7 ++
            [{ target := -3, com := exampleComponent 7 .ComponentTypeNormal 1,
               op := .CollectionOperateAdd }])) :=
  ⟨exampleCollection_WF,
    operate_owned_shard exampleCollection exampleCollection_WF .CollectionOperateAdd (-3)
      (exampleComponent 7 .ComponentTypeNormal 1) 0 (Or.inl rfl)⟩

/-! ### Sparse collection: a registered storage is found again -/

/-- C11: for every sparse collection, every type id `it ≤ 65534` and every storage `s`,
`Add(it, s)` returns, and afterwards `Get(it)` and `GetByType(s.ElementType())` both
return the pointer to the storage just registered, behind which `s` is found. -/
theorem Add_then_Get_and_GetByType (s : SparseComponentCollection) (it : Nat)
    (set : IComponentSet) (hit : it ≤ 65534) :
    ∃ s1 ref, s.Add it set = some s1 ∧ s1.Get it = some (some ref) ∧
      s1.GetByType set.elementType = some (some ref) ∧ s1.deref ref = some set := by
  obtain ⟨s1, hadd, hsets, hm, hget⟩ := Add_some s it set (by omega)
  refine ⟨s1, s.sets.length, hadd, hget, ?_, ?_⟩
  · unfold SparseComponentCollection.GetByType
    rw [hm, lookup_mapSet, if_pos rfl]
    simp [SparseComponentCollection.setAt, hsets]
  · simp [SparseComponentCollection.deref, hsets]

/-- C11 at a concrete input: type id 65534 on a new sparse collection. -/
theorem Add_then_Get_and_GetByType_witness :
    ∃ s1 ref, NewSparseComponentCollection.Add 65534 exampleSet = some s1 ∧
      s1.Get 65534 = some (some ref) ∧
      s1.GetByType exampleSet.elementType = some (some ref) ∧
      s1.deref ref = some exampleSet :=
  Add_then_Get_and_GetByType NewSparseComponentCollection 65534 exampleSet (by decide)

/-! ### UnorderedContainer: `Remove` out of range -/

/-- C12: for every container and every index `idx < 0` or `idx ≥ len`, `Remove(idx)`
returns the container as it was: the buffer, the element count and the result of every
`Get` (the pointer and what is read through it) are unchanged. -/
theorem Remove_out_of_range_noop (p : UnorderedContainer) (idx : Int)
    (h : idx < 0 ∨ idx ≥ p.len) :
    ∃ p1, p.Remove idx = some p1 ∧ p1 = p ∧ p1.buf = p.buf ∧ p1.len = p.len ∧
      ∀ j : Int, p1.Get j = p.Get j ∧ p1.elem j = p.elem j := by
  refine ⟨p, ?_, rfl, rfl, rfl, fun j => ⟨rfl, rfl⟩⟩
  unfold UnorderedContainer.Remove
  rw [if_pos h]

/-- C12 at a concrete input: the container holding `[7]` and the indices 1 and -1. -/
theorem Remove_out_of_range_noop_witness :
    (∃ p1, exampleContainer.Remove 1 = some p1 ∧ p1 = exampleContainer ∧
      p1.buf = exampleContainer.buf ∧ p1.len = exampleContainer.len ∧
      ∀ j : Int, p1.Get j = exampleContainer.Get j ∧ p1.elem j = exampleContainer.elem j) ∧
    exampleContainer.Remove (-1) = some exampleContainer :=
  ⟨Remove_out_of_range_noop exampleContainer 1 (by decide), by decide⟩

/-! ### System life cycle -/

/-- C13: with the stage order `Invalid < Init < Start < {Update, Pause} < Destroy <
Destroyed`, none of `pause`, `resume`, `stop` moves a system to an earlier stage; `stop`
sends every state before Destroy to Destroy and is idempotent; a system in Destroy or
Destroyed is left unchanged by all three. -/
theorem lifecycle_one_way (s : System) :
    s.state.stage ≤ s.pause.state.stage ∧ s.state.stage ≤ s.resume.state.stage ∧
    s.state.stage ≤ s.stop.state.stage ∧
    (s.state.stage < SystemState.SystemStateDestroy.stage →
      s.stop.state = .SystemStateDestroy) ∧
    s.stop.stop = s.stop ∧
    (s.state = .SystemStateDestroy ∨ s.state = .SystemStateDestroyed →
      s.pause = s ∧ s.resume = s ∧ s.stop = s) := by
  obtain ⟨r, o, w, st⟩ := s
  cases st <;>
    simp [System.pause, System.resume, System.stop, System.getState, System.setState,
      SystemState.stage, SystemState.val]

/-- C14: `pause` changes the state if and only if it is Update, and then to Pause;
`resume` changes the state if and only if it is Pause, and then to Update; `resume` after
`pause` restores a system in Update, `pause` after `resume` restores a system in Pause,
and each of the two is idempotent. -/
theorem pause_resume_inverse (s : System) :
    (s.pause.state ≠ s.state ↔ s.state = .SystemStateUpdate) ∧
    (s.state = .SystemStateUpdate → s.pause.state = .SystemStatePause) ∧
    (s.resume.state ≠ s.state ↔ s.state = .SystemStatePause) ∧
    (s.state = .SystemStatePause → s.resume.state = .SystemStateUpdate) ∧
    (s.state = .SystemStateUpdate → s.pause.resume = s) ∧
    (s.state = .SystemStatePause → s.resume.pause = s) ∧
    s.pause.pause = s.pause ∧ s.resume.resume = s.resume ∧
    (s.state ≠ .SystemStateUpdate → s.pause = s) ∧
    (s.state ≠ .SystemStatePause → s.resume = s) := by
  obtain ⟨r, o, w, st⟩ := s
  cases st <;>
    simp [System.pause, System.resume, System.getState, System.setState]

/-- The state after `baseInit` is Start, whatever the arguments and the `Init` method. -/
theorem baseInit_state (s : System) (world : Option ecsWorld) (OrderInvalid OrderDefault : Nat)
    (init : Option (System × componentMeta → System × componentMeta)) (reg : componentMeta) :
    (s.baseInit world OrderInvalid OrderDefault init reg).1.state = .SystemStateStart := rfl

/-- C15: for every system whose state is Init or later, `setRequirements` leaves the
system (its requirements map included) and the type registry unchanged and `setOrder`
leaves the system (its order included) unchanged, for every argument; the system that
`baseInit` leaves, in state Start, is such a system. -/
theorem registration_frozen (s : System)
    (h : SystemState.SystemStateInit.val ≤ s.state.val) (rqs : List IRequirement)
    (order : Nat) (reg : componentMeta) :
    s.setRequirements rqs reg = (s, reg) ∧
    (s.setRequirements rqs reg).1.requirements = s.requirements ∧
    s.setOrder order = s ∧ (s.setOrder order).order = s.order ∧
    ∀ (world : Option ecsWorld) (OrderInvalid OrderDefault : Nat)
      (init : Option (System × componentMeta → System × componentMeta))
      (reg0 : componentMeta),
      (s.baseInit world OrderInvalid OrderDefault init reg0).1.state = .SystemStateStart ∧
      (s.baseInit world OrderInvalid OrderDefault init reg0).1.setRequirements rqs reg =
        ((s.baseInit world OrderInvalid OrderDefault init reg0).1, reg) ∧
      (s.baseInit world OrderInvalid OrderDefault init reg0).1.setOrder order =
        (s.baseInit world OrderInvalid OrderDefault init reg0).1 := by
  have key : ∀ s1 : System, SystemState.SystemStateInit.val ≤ s1.state.val →
      s1.setRequirements rqs reg = (s1, reg) ∧ s1.setOrder order = s1 := by
    intro s1 h1
    have hi : s1.isInitialized = true := by
      simp only [System.isInitialized, decide_eq_true_eq]
      exact h1
    exact ⟨by simp only [System.setRequirements, hi, if_true],
      by simp only [System.setOrder, hi, if_true]⟩
  obtain ⟨h1, h2⟩ := key s h
  refine ⟨h1, by rw [h1], h2, by rw [h2], ?_⟩
  intro world oi od init reg0
  have hs := baseInit_state s world oi od init reg0
  obtain ⟨h3, h4⟩ := key (s.baseInit world oi od init reg0).1 (by rw [hs]; decide)
  exact ⟨hs, h3, h4⟩

/-- C15 at a concrete input: a system in state Start, a requirement on type 9 and the
order 5. -/
theorem registration_frozen_witness :
    exampleSystem.setRequirements [{ typ := 9, write := true }] ComponentMeta =
      (exampleSystem, ComponentMeta) ∧
    exampleSystem.setOrder 5 = exampleSystem :=
  have h := registration_frozen exampleSystem (by decide) [{ typ := 9, write := true }] 5
    ComponentMeta
  ⟨h.1, h.2.2.1⟩

/-! ### Requesting components -/

/-- The empty iterator: `Empty()` and `End()` are true and `Begin()` returns nil. -/
theorem EmptyIter_empty :
    EmptyIter.Empty = true ∧ EmptyIter.End = true ∧ EmptyIter.Begin = some (none, EmptyIter) := by
  decide

/-- The two kinds of misuse that `GetInterestedComponents` does report: a system in state
Invalid, or a type that is not among the requirements. The error goes to the first error
pointer and the empty iterator is returned, without a call of `getComponents`. -/
theorem GetInterestedComponents_misuse
    (getComponents : Option ecsWorld → RType → Option (Option IComponentSet))
    (sys : System) (typ : RType) (e : Option String) (rest : List (Option String))
    (h : sys.state = .SystemStateInvalid ∨
      (match sys.requirements with
        | none => none
        | some m => m.lookup typ) = none) :
    ∃ msg, GetInterestedComponents getComponents sys typ (e :: rest) =
      some (some msg :: rest, EmptyIter) := by
  unfold GetInterestedComponents
  by_cases hs : sys.state = .SystemStateInvalid
  · exact ⟨"must init system first", by simp [System.getState, hs, setError]⟩
  · rcases h with h | h
    · exact absurd h hs
    · exact ⟨"not require, typ:", by
        simp [System.getState, System.Requirements, hs, h, setError]⟩

/-- C16, evaluated on the code: a system in state Start that requires type 7 and whose
world pointer is nil. `sys.World()` is an interface that holds the nil pointer, not the
nil interface, so the test `sys.World() == nil` fails: whatever `getComponents` does on
the nil pointer, no error is written, and when it panics there the call panics. -/
theorem GetInterestedComponents_nil_world
    (getComponents : Option ecsWorld → RType → Option (Option IComponentSet)) :
    exampleSystem.world = none ∧ exampleSystem.World ≠ IWorld.nil ∧
    (∀ r, GetInterestedComponents getComponents exampleSystem 7 [none] = some r →
      r.1 = [none]) ∧
    (getComponents none 7 = none →
      GetInterestedComponents getComponents exampleSystem 7 [none] = none) := by
  have hG : GetInterestedComponents getComponents exampleSystem 7 [none] =
      match getComponents none 7 with
      | none => none
      | some none => some ([none], EmptyIter)
      | some (some c) =>
        match NewIterator c with
        | none => none
        | some it => some ([none], it) := rfl
  refine ⟨rfl, by decide, ?_, ?_⟩
  · intro r hr
    rw [hG] at hr
    cases hg : getComponents none 7 with
    | none => rw [hg] at hr; cases hr
    | some o =>
      cases o with
      | none => rw [hg] at hr; cases hr; rfl
      | some c =>
        rw [hg] at hr
        simp only at hr
        cases hn : NewIterator c with
        | none => rw [hn] at hr; cases hr
        | some it => rw [hn] at hr; cases hr; rfl
  · intro hg
    rw [hG, hg]

/-! ### Iteration -/

theorem Iter_End_eq (c : Option IComponentSet) (len offset : Int) (cur : Option Nat) :
    Iter.End ⟨c, len, offset, cur⟩ =
      if offset > int64 (len - 1) ∨ len = 0 then true else false := rfl

theorem Iter_Next_eq (c : Option IComponentSet) (len offset : Int) (cur : Option Nat) :
    Iter.Next ⟨c, len, offset, cur⟩ =
      if ¬ (Iter.End ⟨c, len, int64 (offset + 1), cur⟩ = true) then
        match elemPtr c (int64 (offset + 1)) with
        | none => none
        | some ptr => some (some ptr, ⟨c, len, int64 (offset + 1), some ptr⟩)
      else some (cur, ⟨c, len, int64 (offset + 1), cur⟩) := rfl

theorem Iter_loop_succ (fuel : Nat) (it : Iter) (c : Option Nat) :
    Iter.loop (fuel + 1) it c =
      if it.End = true then some []
      else
        match it.Next with
        | none => none
        | some (c1, it1) =>
          match Iter.loop fuel it1 c1 with
          | none => none
          | some rest => some (c :: rest) := rfl

theorem Iter_loop_at_end (col : IComponentSet) (fuel : Nat) (cur c : Option Nat)
    (hf : 0 < fuel) (hlen : col.data.length < 2 ^ 63) :
    Iter.loop fuel ⟨some col, (col.data.length : Int), (col.data.length : Int), cur⟩ c =
      some [] := by
  obtain ⟨f, rfl⟩ : ∃ f, fuel = f + 1 := ⟨fuel - 1, by omega⟩
  have : Iter.End ⟨some col, (col.data.length : Int), (col.data.length : Int), cur⟩ = true := by
    rw [Iter_End_eq, int64_eq_self _ (by omega) (by omega), if_pos (by omega)]
  rw [Iter_loop_succ, if_pos this]

theorem Iter_Next_inside (col : IComponentSet) (hlen : col.data.length < 2 ^ 63) (k : Nat)
    (cur : Option Nat) (hk : k + 1 < col.data.length) :
    Iter.Next ⟨some col, (col.data.length : Int), (k : Int), cur⟩ =
      some (some (k + 1),
        ⟨some col, (col.data.length : Int), ((k + 1 : Nat) : Int), some (k + 1)⟩) := by
  have hn1 : int64 ((col.data.length : Int) - 1) = (col.data.length : Int) - 1 :=
    int64_eq_self _ (by omega) (by omega)
  have hk1 : int64 ((k : Int) + 1) = ((k + 1 : Nat) : Int) := by
    rw [int64_eq_self _ (by omega) (by omega)]
    push_cast
    rfl
  have hp : elemPtr (some col) ((k + 1 : Nat) : Int) = some (k + 1) := by
    simp only [elemPtr]
    rw [if_pos ⟨by omega, by omega⟩]
    rfl
  have hE : Iter.End ⟨some col, (col.data.length : Int), int64 ((k : Int) + 1), cur⟩ =
      false := by
    rw [Iter_End_eq, hk1, hn1, if_neg (by omega)]
  rw [Iter_Next_eq, if_pos (by rw [hE]; decide), hk1, hp]

theorem Iter_Next_last (col : IComponentSet) (hlen : col.data.length < 2 ^ 63) (k : Nat)
    (cur : Option Nat) (hk : k + 1 = col.data.length) :
    Iter.Next ⟨some col, (col.data.length : Int), (k : Int), cur⟩ =
      some (cur, ⟨some col, (col.data.length : Int), (col.data.length : Int), cur⟩) := by
  have hn1 : int64 ((col.data.length : Int) - 1) = (col.data.length : Int) - 1 :=
    int64_eq_self _ (by omega) (by omega)
  have hk1 : int64 ((k : Int) + 1) = (col.data.length : Int) := by
    rw [int64_eq_self _ (by omega) (by omega)]
    omega
  have hE : Iter.End ⟨some col, (col.data.length : Int), int64 ((k : Int) + 1), cur⟩ =
      true := by
    rw [Iter_End_eq, hk1, hn1, if_pos (by omega)]
  rw [Iter_Next_eq, if_neg (by rw [hE]; decide), hk1]

/-- The loop from offset `k` with `m > 0` elements left: the body runs with the pointers
to the elements `k, …, k + m - 1`. -/
theorem Iter_loop_from (col : IComponentSet) (hlen : col.data.length < 2 ^ 63) :
    ∀ (m k fuel : Nat) (cur : Option Nat), k + m = col.data.length → 0 < m → m < fuel →
      Iter.loop fuel ⟨some col, (col.data.length : Int), (k : Int), cur⟩ (some k) =
        some ((List.range' k m).map some) := by
  intro m
  induction m with
  | zero => intro k fuel cur _ h; omega
  | succ m ih =>
    intro k fuel cur hk _ hf
    obtain ⟨f, rfl⟩ : ∃ f, fuel = f + 1 := ⟨fuel - 1, by omega⟩
    have hn1 : int64 ((col.data.length : Int) - 1) = (col.data.length : Int) - 1 :=
      int64_eq_self _ (by omega) (by omega)
    have hEnd : Iter.End ⟨some col, (col.data.length : Int), (k : Int), cur⟩ = false := by
      rw [Iter_End_eq, hn1, if_neg (by omega)]
    rw [Iter_loop_succ, if_neg (by rw [hEnd]; decide)]
    by_cases hm : m = 0
    · subst hm
      rw [Iter_Next_last col hlen k cur (by omega)]
      simp only
      rw [Iter_loop_at_end col f cur cur (by omega) hlen]
      simp [List.range']
    · rw [Iter_Next_inside col hlen k cur (by omega)]
      simp only
      rw [ih (k + 1) f (some (k + 1)) (by omega) (by omega) (by omega)]
      simp [List.range']

/-- C17: for every collection holding `n ≥ 0` elements (a slice length, so below
`2 ^ 63`), the loop `for c := it.Begin(); !it.End(); c = it.Next()` over
`NewIterator(collection)` ends within `n + 1` tests of its condition without a panic
(no index outside `0..n-1` is read), and its body runs exactly `n` times, the `k`-th
time with `c` pointing at `collection.data[k]`. -/
theorem iterate_visits_all (collection : IComponentSet) (fuel : Nat)
    (hlen : collection.data.length < 2 ^ 63) (hf : collection.data.length < fuel) :
    iterate fuel collection = some ((List.range collection.data.length).map some) ∧
    ((List.range collection.data.length).map some).length = collection.data.length := by
  refine ⟨?_, by simp⟩
  unfold iterate NewIterator Iter.Begin
  by_cases h0 : collection.data.length = 0
  · have hl : collection.Len = 0 := by simp [IComponentSet.Len, h0]
    simp only [hl, ne_eq, not_true_eq_false, if_false]
    have := Iter_loop_at_end collection fuel none none (by omega) hlen
    rw [h0] at this
    simp only [Nat.cast_zero] at this
    rw [this, h0]
    rfl
  · have hl : collection.Len ≠ 0 := by simp [IComponentSet.Len, h0]
    have hp : elemPtr (some collection) 0 = some 0 := by
      simp only [elemPtr]
      rw [if_pos (by omega)]
      rfl
    simp only [hl, ne_eq, not_false_eq_true, if_true, hp]
    have := Iter_loop_from collection hlen collection.data.length 0 fuel (some 0)
      (by omega) (by omega) hf
    simp only [Nat.cast_zero] at this
    rw [List.range_eq_range']
    exact this

/-- C17 at a concrete input: a storage of three elements and four rounds of fuel. -/
theorem iterate_visits_all_witness :
    iterate 4 exampleSet = some ((List.range exampleSet.data.length).map some) ∧
    ((List.range exampleSet.data.length).map some).length = exampleSet.data.length :=
  iterate_visits_all exampleSet 4 (by decide) (by decide)

/-! ### The sequence of type ids -/

/-- One call of `GetComponentMetaInfo` on a type that is not in the map, with the
counter below 65535: the id returned is the counter plus one, and so is the new
counter. -/
theorem GetComponentMetaInfo_fresh (c : componentMeta) (t : RType)
    (hnew : c.types.lookup t = none) (hroom : c.seq < 65535) :
    (c.GetComponentMetaInfo t).1.it = c.seq + 1 ∧
    (c.GetComponentMetaInfo t).2.seq = c.seq + 1 ∧
    (c.GetComponentMetaInfo t).2.types = c.types := by
  unfold componentMeta.GetComponentMetaInfo
  simp only [hnew]
  have : (c.seq + 1) % 2 ^ 16 = c.seq + 1 := Nat.mod_eq_of_lt (by omega)
  exact ⟨this, this, trivial⟩

/-- C18: calls of `GetComponentMetaInfo` on types that are not in the registry, made
while the counter stays within 65535: each call returns the previous counter plus one
and advances the counter by one, so the ids issued are `seq + 1, seq + 2, …` in the
order of the calls, strictly increasing and pairwise distinct. -/
theorem ids_strictly_increasing (ts : List RType) :
    ∀ c : componentMeta, (∀ t ∈ ts, c.types.lookup t = none) →
      c.seq + ts.length ≤ 65535 →
      (c.registerAll ts).1 = List.range' (c.seq + 1) ts.length ∧
      (c.registerAll ts).2.seq = c.seq + ts.length ∧
      (c.registerAll ts).1.Pairwise (fun a b => a < b) ∧
      (c.registerAll ts).1.Nodup := by
  have main : ∀ (ts : List RType) (c : componentMeta),
      (∀ t ∈ ts, c.types.lookup t = none) → c.seq + ts.length ≤ 65535 →
      (c.registerAll ts).1 = List.range' (c.seq + 1) ts.length ∧
      (c.registerAll ts).2.seq = c.seq + ts.length := by
    intro ts
    induction ts with
    | nil => intro c _ _; exact ⟨rfl, rfl⟩
    | cons t rest ih =>
      intro c hnew hroom
      simp only [List.length_cons] at hroom
      obtain ⟨h1, h2, h3⟩ := GetComponentMetaInfo_fresh c t
        (hnew t (List.mem_cons_self _ _)) (by omega)
      obtain ⟨h4, h5⟩ := ih (c.GetComponentMetaInfo t).2
        (fun t1 ht1 => by rw [h3]; exact hnew t1 (List.mem_cons_of_mem _ ht1))
        (by rw [h2]; omega)
      refine ⟨?_, ?_⟩
      · simp only [componentMeta.registerAll, List.length_cons, List.range'_succ, h1, h4, h2]
      · simp only [componentMeta.registerAll, List.length_cons, h5, h2]
        omega
  intro c hnew hroom
  obtain ⟨h1, h2⟩ := main ts c hnew hroom
  refine ⟨h1, h2, ?_, ?_⟩
  · rw [h1]
    exact List.pairwise_lt_range' _ _
  · rw [h1]
    exact List.nodup_range' _ _

/-- C18 at a concrete input: three types observed from the initial registry get the ids
1, 2, 3. -/
theorem ids_strictly_increasing_witness :
    (ComponentMeta.registerAll [5, 6, 9]).1 = [1, 2, 3] ∧
    (ComponentMeta.registerAll [5, 6, 9]).2.seq = 3 ∧
    (ComponentMeta.registerAll [5, 6, 9]).1.Pairwise (fun a b => a < b) ∧
    (ComponentMeta.registerAll [5, 6, 9]).1.Nodup :=
  have h := ids_strictly_increasing [5, 6, 9] ComponentMeta (by decide) (by decide)
  ⟨h.1, h.2.1, h.2.2.1, h.2.2.2⟩

/-! ### Worker affinity -/

/-- C19: one round of a worker of a pool that has a queue for each of its `numWorkers`
workers. A job received from the global queue with `0 ≤ WorkerID < numWorkers` is put at
the end of the personal queue of that worker and is not run; a job received from the
global queue with any other `WorkerID`, `WORKER_ID_RANDOM` included, is run by the
receiving worker and the pool is left as it was; a job received from the personal queue
is run, never forwarded. -/
theorem worker_round_routing (p : Pool) (job : Job)
    (hq : p.numWorkers ≤ p.workerQueue.length) :
    (0 ≤ job.WorkerID ∧ job.WorkerID < p.numWorkers →
      ∃ q, p.workerQueue[job.WorkerID.toNat]? = some q ∧
        Worker.round p (.global job) = some (.forwarded job.WorkerID.toNat job,
          { p with workerQueue := p.workerQueue.set job.WorkerID.toNat (q ++ [job]) })) ∧
    (¬ (0 ≤ job.WorkerID ∧ job.WorkerID < p.numWorkers) →
      Worker.round p (.global job) = some (.executed job, p)) ∧
    (job.WorkerID = WORKER_ID_RANDOM → Worker.round p (.global job) = some (.executed job, p)) ∧
    Worker.round p (.personal job) = some (.executed job, p) := by
  refine ⟨?_, ?_, ?_, rfl⟩
  · rintro ⟨h0, h1⟩
    have hlt : job.WorkerID.toNat < p.workerQueue.length := by omega
    refine ⟨p.workerQueue[job.WorkerID.toNat], List.getElem?_eq_getElem hlt, ?_⟩
    have hne : job.WorkerID ≠ WORKER_ID_RANDOM := by
      unfold WORKER_ID_RANDOM
      omega
    simp only [Worker.round, hne, ne_eq, not_false_eq_true, if_true, h0, h1, ge_iff_le,
      and_self, sliceIndex_some _ _ h0 (by omega : job.WorkerID < p.workerQueue.length)]
    congr 3
    rw [List.modify_eq_set_get _ hlt]
    rfl
  · intro h
    by_cases hne : job.WorkerID = WORKER_ID_RANDOM
    · simp [Worker.round, hne]
    · simp only [Worker.round, hne, ne_eq, not_false_eq_true, if_true, ge_iff_le]
      rw [if_neg h]
  · intro h
    simp [Worker.round, h]

/-- C19 at a concrete input: the pool of two workers and a job with `WorkerID` 1. -/
theorem worker_round_routing_witness :
    Worker.round examplePool (.global { WorkerID := 1, tag := 5 }) =
      some (.forwarded 1 { WorkerID := 1, tag := 5 },
        { examplePool with workerQueue := [[], [{ WorkerID := 1, tag := 5 }]] }) ∧
    Worker.round examplePool (.global { WorkerID := 2, tag := 5 }) =
      some (.executed { WorkerID := 2, tag := 5 }, examplePool) ∧
    Worker.round examplePool (.global { WorkerID := -1, tag := 5 }) =
      some (.executed { WorkerID := -1, tag := 5 }, examplePool) ∧
    Worker.round examplePool (.personal { WorkerID := 1, tag := 5 }) =
      some (.executed { WorkerID := 1, tag := 5 }, examplePool) :=
  have h1 := worker_round_routing examplePool { WorkerID := 1, tag := 5 } (by decide)
  have h2 := worker_round_routing examplePool { WorkerID := 2, tag := 5 } (by decide)
  have h3 := worker_round_routing examplePool { WorkerID := -1, tag := 5 } (by decide)
  ⟨by decide, h2.2.1 (by decide), h3.2.2.1 rfl, h1.2.2.2⟩

/-! ### Sibling-cache events of `opExecute` -/

theorem markOnce_cacheCh (c c1 : ComponentCollection) (hash : Int) (typ : RType)
    (h : c.markOnce hash typ = some c1) : c1.cacheCh = c.cacheCh := by
  unfold ComponentCollection.markOnce at h
  split at h
  · simp only at h
    split at h
    · cases h; rfl
    · cases h; rfl
  · cases h

theorem disposableTemp_cacheCh (c c1 : ComponentCollection) (com : IComponent)
    (typ : RType) (addr : Nat) (h : c.disposableTemp com typ addr = some c1) :
    c1.cacheCh = c.cacheCh := by
  rw [disposableTemp_eq] at h
  exact markOnce_cacheCh _ _ _ _ h

theorem deleteEvents_cons (it : Nat) (task : opTask) (rest : List opTask) :
    deleteEvents it (task :: rest) = deleteEvents it [task] ++ deleteEvents it rest := by
  unfold deleteEvents
  rw [← List.map_append, ← List.filter_append]
  rfl

/-- One round of `opExecute` sends a cache event exactly for a delete of a Normal or
Disposable component; an add sends none. -/
theorem opStep_cacheCh (del : IComponent → IComponentSet → IComponentSet)
    (c c1 : ComponentCollection) (ref it : Nat) (task : opTask) (addr : Nat)
    (h : c.opStep del ref it task addr = some c1) :
    c1.cacheCh = c.cacheCh ++ deleteEvents it [task] := by
  obtain ⟨target, ⟨typ, kind, owner, intType, payload⟩, op⟩ := task
  cases op
  · cases h
    exact (List.append_nil _).symm
  · cases kind
    · cases h
      exact (List.append_nil _).symm
    · simp only [ComponentCollection.opStep] at h
      rw [disposableTemp_cacheCh _ _ _ _ _ h]
      exact (List.append_nil _).symm
    · cases h
      exact (List.append_nil _).symm
    · simp only [ComponentCollection.opStep] at h
      rw [disposableTemp_cacheCh _ _ _ _ _ h]
      exact (List.append_nil _).symm
  · cases kind
    · cases h; rfl
    · cases h; rfl
    · cases h
      exact (List.append_nil _).symm
    · cases h
      exact (List.append_nil _).symm

theorem opLoop_cacheCh (del : IComponent → IComponentSet → IComponentSet) (ref it : Nat)
    (taskList : List opTask) :
    ∀ (addr : Nat → Nat) (c c1 : ComponentCollection),
      c.opLoop del ref it taskList addr = some c1 →
      c1.cacheCh = c.cacheCh ++ deleteEvents it taskList := by
  induction taskList with
  | nil =>
    intro addr c c1 h
    cases h
    exact (List.append_nil _).symm
  | cons task rest ih =>
    intro addr c c1 h
    unfold ComponentCollection.opLoop at h
    cases hs : c.opStep del ref it task (addr 0) with
    | none => rw [hs] at h; cases h
    | some c2 =>
      rw [hs] at h
      rw [ih _ c2 c1 h, opStep_cacheCh del c c2 ref it task (addr 0) hs,
        deleteEvents_cons it task rest, List.append_assoc]

/-- C20, counterexample: `opExecute` applies a task list holding one Add of a Normal
component for entity 1 to the storage of its type, and nothing is sent on the
sibling-cache channel. -/
theorem opExecute_add_sends_no_event :
    ∃ c1, exampleStored.opExecute (fun _ s => s)
        [{ target := 1, com := exampleComponent 8 .ComponentTypeNormal 2,
           op := .CollectionOperateAdd }] (some 0) (fun _ => 0) = some c1 ∧
      c1.cacheCh = [] ∧
      (c1.collections.deref 0).map (fun s => s.data.length) = some 2 :=
  ⟨_, rfl, rfl, rfl⟩

/-- C20, amended: in a well-formed collection, `opExecute` applied to a task list and an
existing storage does not panic, and the events it sends on the sibling-cache channel
are exactly one event `(target, type id of the storage, 2)` for each Delete of a Normal
or Disposable component, in list order; an Add sends no event, whatever the kind, so a
list without deletes leaves the channel as it was. -/
theorem opExecute_cache_events (del : IComponent → IComponentSet → IComponentSet)
    (c : ComponentCollection) (hc : c.WF) (taskList : opTaskList) (ref : Nat)
    (addr : Nat → Nat) (hlt : ref < c.collections.sets.length) :
    ∃ c1 set, c.collections.deref ref = some set ∧
      c.opExecute del taskList (some ref) addr = some c1 ∧
      c1.cacheCh = c.cacheCh ++ deleteEvents set.elementMeta.it taskList ∧
      ((∀ task ∈ taskList, task.op ≠ .CollectionOperateDelete) → c1.cacheCh = c.cacheCh) := by
  obtain ⟨c1, h1, _⟩ :=
    opLoop_spec del ref (c.collections.sets[ref]).elementMeta.it taskList addr c hc
  have hd : c.collections.deref ref = some c.collections.sets[ref] := by
    simp [SparseComponentCollection.deref, List.getElem?_eq_getElem hlt]
  have hev := opLoop_cacheCh del ref _ taskList addr c c1 h1
  refine ⟨c1, _, hd, ?_, hev, ?_⟩
  · unfold ComponentCollection.opExecute
    simp only [hd]
    exact h1
  · intro hno
    rw [hev]
    have : deleteEvents (c.collections.sets[ref]).elementMeta.it taskList = [] := by
      unfold deleteEvents
      rw [List.map_eq_nil_iff, List.filter_eq_nil_iff]
      intro task htask
      simp only [decide_eq_true_eq, not_and]
      intro hdel
      exact absurd hdel (hno task htask)
    rw [this, List.append_nil]

/-- C20, amended, at a concrete input: an Add and a Delete of a Normal component of
type 8 for entity 1; the one event sent is that of the Delete. -/
theorem opExecute_cache_events_witness :
    deleteEvents 8 exampleTasks = [{ target := 1, it := 8, op := 2 }] ∧
    ∃ c1 set, exampleStored.collections.deref 0 = some set ∧
      exampleStored.opExecute (fun _ s => s) exampleTasks (some 0) (fun _ => 0) = some c1 ∧
      c1.cacheCh = exampleStored.cacheCh ++ deleteEvents set.elementMeta.it exampleTasks ∧
      ((∀ task ∈ exampleTasks, task.op ≠ .CollectionOperateDelete) →
        c1.cacheCh = exampleStored.cacheCh) :=
  ⟨by decide,
    opExecute_cache_events (fun _ s => s) exampleStored exampleStored_WF exampleTasks 0
      (fun _ => 0) (by decide)⟩

/-! ### ContainerWithId -/

/-- C22: for every container in which `id` is already a key of `id2idx`, `add(ptr, id)`
returns `(0, nil)` and leaves the container as it was: the embedded container (buffer
and length) and both maps `id2idx` and `idx2id`. -/
theorem add_present_id_rejected (p : ContainerWithId) (mem : Nat → Nat) (id : Nat)
    (rest : List Nat) (h : (p.id2idx.lookup id).isSome = true) :
    (p.add mem (id :: rest)).1 = (0, none) ∧ (p.add mem (id :: rest)).2 = p ∧
    (p.add mem (id :: rest)).2.Container.buf = p.Container.buf ∧
    (p.add mem (id :: rest)).2.Container.len = p.Container.len ∧
    (p.add mem (id :: rest)).2.id2idx = p.id2idx ∧
    (p.add mem (id :: rest)).2.idx2id = p.idx2id := by
  have : p.add mem (id :: rest) = ((0, none), p) := by
    simp only [ContainerWithId.add, h, if_true]
  rw [this]
  exact ⟨rfl, rfl, rfl, rfl, rfl, rfl⟩

/-- C22 at a concrete input: the container holding ids 5 and 6, and a second `add` with
id 6. -/
theorem add_present_id_rejected_witness :
    (exampleWithId2.id2idx.lookup 6).isSome = true ∧
    (exampleWithId2.add (fun _ => 3) [6]).1 = (0, none) ∧
    (exampleWithId2.add (fun _ => 3) [6]).2 = exampleWithId2 :=
  have h := add_present_id_rejected exampleWithId2 (fun _ => 3) 6 [] (by decide)
  ⟨by decide, h.1, h.2.1⟩

/-- C23, evaluated on the code. The container with the single element of id 5:
`removeById(5)` finds position 0, and `remove(0)` returns at its guard `idx >= p.len`,
`p.len` being 0, the position of the last element; the container is unchanged and
`getById(5)` still returns the element. The same holds for the last of two elements
(id 6). An element that is not the last one (id 5 of two) is removed as claimed: the
last element moves to its position and the maps follow. -/
theorem removeById_last_is_noop :
    (exampleWithId.removeById 5 = exampleWithId ∧
      (exampleWithId.removeById 5).getById 5 = some 0 ∧
      (exampleWithId.removeById 5).Container.read 0 = [7]) ∧
    (exampleWithId2.removeById 6 = exampleWithId2 ∧
      (exampleWithId2.removeById 6).getById 6 = some 1) ∧
    ((exampleWithId2.removeById 5).getById 5 = none ∧
      (exampleWithId2.removeById 5).getById 6 = some 0 ∧
      (exampleWithId2.removeById 5).Container.read 0 = [9] ∧
      (exampleWithId2.removeById 5).id2idx = [(6, 0)] ∧
      (exampleWithId2.removeById 5).idx2id = [(0, 6)]) := by
  decide

/-- C25, evaluated on the code: after the single call `Add(3, s)` on a new sparse
collection, the index array is `[0, 0, 0, 0]`, the slots of the ids 0, 1 and 2 holding
the zero value and not `-1`; `Get(0)`, `Get(1)` and `Get(2)` return the storage `s`
registered for id 3, not nil. Only an id at or beyond the length of the index array
gets nil. -/
theorem Get_of_never_added_id :
    ∃ s1, NewSparseComponentCollection.Add 3 exampleSet = some s1 ∧
      s1.indices = [0, 0, 0, 0] ∧
      s1.Get 0 = some (some 0) ∧ s1.Get 1 = some (some 0) ∧ s1.Get 2 = some (some 0) ∧
      s1.deref 0 = some exampleSet ∧ s1.Get 3 = some (some 0) ∧ s1.Get 4 = some none :=
  ⟨_, rfl, by decide, by decide, by decide, by decide, by decide, by decide, by decide⟩

/-! ### The drain neither loses nor duplicates -/

theorem NewSparseComponentCollection_Inj : NewSparseComponentCollection.Inj := by
  intro t1 t2 i h
  simp [NewSparseComponentCollection, List.lookup] at h

/-- `Add` keeps the map injective: the new type gets the position after the last storage,
which no type has yet. -/
theorem Add_Inj (s s1 : SparseComponentCollection) (hs : s.WF) (hinj : s.Inj)
    (set : IComponentSet) (hm : s1.m = mapSet s.m set.elementType (s.sets.length : Int)) :
    s1.Inj := by
  have hold : ∀ t i, s.m.lookup t = some i → i ≠ (s.sets.length : Int) := by
    intro t i h
    have := (hs _ (mem_of_lookup _ _ _ h)).2
    simp only at this
    omega
  intro t1 t2 i h1 h2
  rw [hm, lookup_mapSet] at h1 h2
  by_cases e1 : t1 = set.elementType <;> by_cases e2 : t2 = set.elementType
  · rw [e1, e2]
  · rw [if_pos e1] at h1
    rw [if_neg e2] at h2
    cases h1
    exact absurd rfl (hold t2 _ h2)
  · rw [if_neg e1] at h1
    rw [if_pos e2] at h2
    cases h2
    exact absurd rfl (hold t1 _ h1)
  · rw [if_neg e1] at h1
    rw [if_neg e2] at h2
    exact hinj t1 t2 i h1 h2

theorem markOnce_inOnce_conv (c c1 : ComponentCollection) (hash : Int) (typ t : RType)
    (h : c.markOnce hash typ = some c1) (hin : c1.inOnce t) : c.inOnce t ∨ t = typ := by
  unfold ComponentCollection.markOnce at h
  split at h
  · rename_i a hidx _ _
    simp only at h
    split at h
    · cases h; exact Or.inl hin
    · cases h
      obtain ⟨sh, hsh, ht⟩ := hin
      simp only at hsh
      rcases List.mem_or_eq_of_mem_set hsh with hmem | heq
      · exact Or.inl ⟨sh, hmem, ht⟩
      · subst heq
        rcases List.mem_append.mp ht with ht | ht
        · left
          rw [List.getD_eq_getElem?_getD] at ht
          cases hg : c.once[hidx]? with
          | none => rw [hg] at ht; simp at ht
          | some sh0 =>
            rw [hg] at ht
            exact ⟨sh0, List.getElem?_mem hg, ht⟩
        · right
          simpa using ht
  · cases h

/-- One round of `opExecute` puts a type into a `once` set only by an Add of a Disposable
or FreeDisposable component of that type. -/
theorem opStep_inOnce_conv (del : IComponent → IComponentSet → IComponentSet)
    (c c1 : ComponentCollection) (ref it : Nat) (task : opTask) (addr : Nat) (t : RType)
    (h : c.opStep del ref it task addr = some c1) (hin : c1.inOnce t) :
    c.inOnce t ∨ (task.op = .CollectionOperateAdd ∧
      (task.com.kind = .ComponentTypeDisposable ∨
        task.com.kind = .ComponentTypeFreeDisposable) ∧ task.com.typ = t) := by
  obtain ⟨target, ⟨typ, kind, owner, intType, payload⟩, op⟩ := task
  cases op
  · cases h; exact Or.inl hin
  · cases kind
    · cases h; exact Or.inl hin
    · simp only [ComponentCollection.opStep] at h
      rw [disposableTemp_eq] at h
      rcases markOnce_inOnce_conv _ _ _ _ _ h hin with h1 | h1
      · exact Or.inl h1
      · exact Or.inr ⟨rfl, Or.inl rfl, h1.symm⟩
    · cases h; exact Or.inl hin
    · simp only [ComponentCollection.opStep] at h
      rw [disposableTemp_eq] at h
      rcases markOnce_inOnce_conv _ _ _ _ _ h hin with h1 | h1
      · exact Or.inl h1
      · exact Or.inr ⟨rfl, Or.inr rfl, h1.symm⟩
  · cases kind <;> (cases h; exact Or.inl hin)

theorem opLoop_inOnce_conv (del : IComponent → IComponentSet → IComponentSet) (ref it : Nat)
    (t : RType) (taskList : List opTask) :
    ∀ (addr : Nat → Nat) (c c1 : ComponentCollection),
      c.opLoop del ref it taskList addr = some c1 → c1.inOnce t →
      c.inOnce t ∨ ∃ task ∈ taskList, task.op = .CollectionOperateAdd ∧
        (task.com.kind = .ComponentTypeDisposable ∨
          task.com.kind = .ComponentTypeFreeDisposable) ∧ task.com.typ = t := by
  induction taskList with
  | nil =>
    intro addr c c1 h hin
    cases h
    exact Or.inl hin
  | cons task rest ih =>
    intro addr c c1 h hin
    unfold ComponentCollection.opLoop at h
    cases hs : c.opStep del ref it task (addr 0) with
    | none => rw [hs] at h; cases h
    | some c2 =>
      rw [hs] at h
      rcases ih _ c2 c1 h hin with h2 | ⟨tk, htk, hrest⟩
      · rcases opStep_inOnce_conv del c c2 ref it task (addr 0) t hs h2 with h3 | h3
        · exact Or.inl h3
        · exact Or.inr ⟨task, List.mem_cons_self _ _, h3⟩
      · exact Or.inr ⟨tk, List.mem_cons_of_mem _ htk, hrest⟩

/-- `removeAllByType` of another type leaves the storage registered for `t` as it is. -/
theorem removeAllByType_keeps (c c1 : ComponentCollection) (hs : c.collections.WF)
    (hinj : c.collections.Inj) (t typ : RType) (ref : Nat)
    (hreg : c.collections.m.lookup t = some (ref : Int)) (hne : typ ≠ t)
    (h : c.removeAllByType typ = some c1) :
    c1.collections.deref ref = c.collections.deref ref := by
  unfold ComponentCollection.removeAllByType at h
  rcases GetByType_some c.collections hs typ with ⟨hg, _⟩ | ⟨ref0, hg, _, hlk⟩
  · rw [hg] at h
    cases h
    rfl
  · rw [hg] at h
    cases h
    have hr : ref0 ≠ ref := by
      intro e
      subst e
      exact hne (hinj typ t _ hlk hreg)
    simp only [SparseComponentCollection.deref, List.get?_eq_getElem?]
    exact List.getElem?_modify_ne _ _ hr

theorem removeTypes_keeps (m : List RType) (t : RType) (ref : Nat) (hnot : t ∉ m) :
    ∀ c c1 : ComponentCollection, c.collections.WF → c.collections.Inj →
      c.collections.m.lookup t = some (ref : Int) → c.removeTypes m = some c1 →
      c1.collections.deref ref = c.collections.deref ref := by
  induction m with
  | nil =>
    intro c c1 _ _ _ h
    cases h
    rfl
  | cons typ rest ih =>
    intro c c1 hs hinj hreg h
    have hne : typ ≠ t := fun e => hnot (e ▸ List.mem_cons_self _ _)
    obtain ⟨c2, h2, hm2, hl2, _⟩ := removeAllByType_spec c hs typ
    unfold ComponentCollection.removeTypes at h
    rw [h2] at h
    have hinj2 : c2.collections.Inj := by
      intro t1 t2 i h1 h3
      rw [hm2] at h1 h3
      exact hinj t1 t2 i h1 h3
    rw [ih (fun hmem => hnot (List.mem_cons_of_mem _ hmem)) c2 c1
      (SparseWF_congr _ _ hs hm2 hl2) hinj2 (by rw [hm2]; exact hreg) h]
    exact removeAllByType_keeps c c2 hs hinj t typ ref hreg hne h2

/-- The loop of `clearDisposable` from position `i` on leaves the storage registered for
`t` as it is when no `once` set from `i` on names `t`. -/
theorem clearLoop_keeps (t : RType) (ref : Nat) :
    ∀ (todo i : Nat) (c c1 : ComponentCollection), c.collections.WF → c.collections.Inj →
      c.collections.m.lookup t = some (ref : Int) →
      (∀ j sh, i ≤ j → c.once[j]? = some sh → t ∉ sh) →
      c.clearLoop todo i = some c1 →
      c1.collections.deref ref = c.collections.deref ref := by
  intro todo
  induction todo with
  | zero =>
    intro i c c1 _ _ _ _ h
    cases h
    rfl
  | succ todo ih =>
    intro i c c1 hs hinj hreg hno h
    unfold ComponentCollection.clearLoop at h
    split at h
    · rw [List.get?_eq_getElem?] at h
      cases hg : c.once[i]? with
      | none => rw [hg] at h; cases h
      | some m =>
        rw [hg] at h
        simp only at h
        obtain ⟨c2, h2, hm2, hl2, ho2, _⟩ := removeTypes_spec m c hs
        rw [h2] at h
        simp only at h
        have hinj2 : c2.collections.Inj := by
          intro t1 t2 k h1 h3
          rw [hm2] at h1 h3
          exact hinj t1 t2 k h1 h3
        have hkeep := removeTypes_keeps m t ref (hno i m (le_refl _) hg) c c2 hs hinj hreg h2
        have := ih (i + 1) ⟨c2.collections, c2.cacheCh, c2.bucket, c2.locks, c2.opLog,
            c2.once.set i []⟩ c1 (SparseWF_congr _ _ hs hm2 hl2) hinj2
          (by rw [hm2]; exact hreg) (by
            intro j sh hj hsome
            have hij : i ≠ j := by omega
            have hsome1 : c.once[j]? = some sh := by
              simpa [ho2, List.getElem?_set, hij] using hsome
            exact hno j sh (by omega) hsome1) h
        rw [← hkeep, ← this]
    · cases h

/-- `clearDisposable` in a well-formed collection with an injective map: it returns, and
the storage registered for a type that no `once` set names is as it was. -/
theorem clearDisposable_keeps (c : ComponentCollection) (hc : c.WF) (hinj : c.collections.Inj)
    (t : RType) (ref : Nat) (hreg : c.collections.GetByType t = some (some ref))
    (hno : ¬ c.inOnce t) :
    ∃ c3, c.clearDisposable = some c3 ∧
      c3.collections.deref ref = c.collections.deref ref ∧
      c3.collections.GetByType t = some (some ref) := by
  have hs := hc.2.2.2.2.2
  have hlk : c.collections.m.lookup t = some (ref : Int) := by
    rcases GetByType_some c.collections hs t with ⟨hg, _⟩ | ⟨r, hg, _, hl⟩
    · rw [hg] at hreg; cases hreg
    · rw [hg] at hreg; cases hreg; exact hl
  obtain ⟨c3, h3, hm3, hl3, _⟩ := clearLoop_spec c.once.length 0 c hs
    (by have := hc.2.1; have := hc.2.2.2.1; omega) (by omega)
  refine ⟨c3, h3, ?_, by rw [GetByType_congr _ _ hm3 hl3]; exact hreg⟩
  refine clearLoop_keeps t ref c.once.length 0 c c3 hs hinj hlk ?_ h3
  intro j sh _ hsome ht
  exact hno ⟨sh, List.getElem?_mem hsome, ht⟩

/-- C24: in a well-formed collection whose map is injective, let `t` be a type that no
shard's `once` set names, with its registered storage `ref`. `clearDisposable` leaves
that storage unchanged. And when `opExecute` first applies a task list without an Add of
a Disposable or FreeDisposable component of type `t`, the type is still in no `once`
set and `clearDisposable` leaves its storage as `opExecute` left it: what was added to
it is still there. -/
theorem clearDisposable_keeps_other_types (del : IComponent → IComponentSet → IComponentSet)
    (c : ComponentCollection) (hc : c.WF) (hinj : c.collections.Inj) (t : RType) (ref : Nat)
    (hreg : c.collections.GetByType t = some (some ref)) (hno : ¬ c.inOnce t)
    (taskList : opTaskList) (ref0 : Nat) (addr : Nat → Nat)
    (hlt0 : ref0 < c.collections.sets.length)
    (hkind : ∀ task ∈ taskList, task.op = .CollectionOperateAdd →
      (task.com.kind = .ComponentTypeDisposable ∨
        task.com.kind = .ComponentTypeFreeDisposable) → task.com.typ ≠ t) :
    (∃ c3, c.clearDisposable = some c3 ∧
      c3.collections.deref ref = c.collections.deref ref ∧
      c3.collections.GetByType t = some (some ref)) ∧
    ∃ c1 c2, c.opExecute del taskList (some ref0) addr = some c1 ∧ ¬ c1.inOnce t ∧
      c1.clearDisposable = some c2 ∧
      c2.collections.deref ref = c1.collections.deref ref ∧
      c2.collections.GetByType t = some (some ref) := by
  refine ⟨clearDisposable_keeps c hc hinj t ref hreg hno, ?_⟩
  obtain ⟨c1, h1, hc1, hm1, hl1, _⟩ :=
    opLoop_spec del ref0 (c.collections.sets[ref0]).elementMeta.it taskList addr c hc
  have hno1 : ¬ c1.inOnce t := by
    intro hin
    rcases opLoop_inOnce_conv del ref0 _ t taskList addr c c1 h1 hin with h | ⟨task, htask, hop, hk, ht⟩
    · exact hno h
    · exact hkind task htask hop hk ht
  have hinj1 : c1.collections.Inj := by
    intro t1 t2 i h2 h3
    rw [hm1] at h2 h3
    exact hinj t1 t2 i h2 h3
  have hreg1 : c1.collections.GetByType t = some (some ref) := by
    rw [GetByType_congr _ _ hm1 hl1]; exact hreg
  obtain ⟨c2, h2, hd2, hg2⟩ := clearDisposable_keeps c1 hc1 hinj1 t ref hreg1 hno1
  refine ⟨c1, c2, ?_, hno1, h2, hd2, hg2⟩
  unfold ComponentCollection.opExecute
  simp only [SparseComponentCollection.deref, List.get?_eq_getElem?,
    List.getElem?_eq_getElem hlt0]
  exact h1

theorem exampleTwoTypes_WF : exampleTwoTypes.WF := by
  refine ⟨⟨2, by decide, by decide⟩, by decide, by decide, by decide, ?_, ?_⟩
  · intro sh hsh
    have : sh = [] := by
      simp only [exampleTwoTypes, exampleCollection, List.mem_cons, List.mem_singleton,
        List.not_mem_nil, or_false, or_self] at hsh
      exact hsh
    rw [this]
    exact List.nodup_nil
  · intro e he
    simp only [exampleTwoTypes, List.mem_cons, List.mem_singleton, List.not_mem_nil,
      or_false] at he
    rcases he with he | he <;> subst he <;> decide

theorem exampleTwoTypes_Inj : exampleTwoTypes.collections.Inj := by
  intro t1 t2 i h1 h2
  have key : ∀ t : RType, exampleTwoTypes.collections.m.lookup t = some i →
      (t = 7 ∧ i = 0) ∨ (t = 8 ∧ i = 1) := by
    intro t h
    have hmem := mem_of_lookup _ _ _ h
    simp only [exampleTwoTypes, List.mem_cons, List.mem_singleton, List.not_mem_nil,
      or_false, Prod.mk.injEq] at hmem
    exact hmem
  rcases key t1 h1 with ⟨a, b⟩ | ⟨a, b⟩ <;> rcases key t2 h2 with ⟨a2, b2⟩ | ⟨a2, b2⟩ <;>
    first
      | (exfalso; omega)
      | (rw [a, a2])

/-- C24 at a concrete input: storages for the types 7 and 8, the type 8 named by a `once`
set; an Add of a Normal component of type 7 for entity 1 is applied to the storage of
type 7, and disposal leaves that storage with the component in it. -/
theorem clearDisposable_keeps_other_types_witness :
    exampleTwoTypes.collections.GetByType 7 = some (some 0) ∧ ¬ exampleTwoTypes.inOnce 7 ∧
    (∃ c3, exampleTwoTypes.clearDisposable = some c3 ∧
      c3.collections.deref 0 = exampleTwoTypes.collections.deref 0 ∧
      c3.collections.GetByType 7 = some (some 0)) ∧
    ∃ c1 c2, exampleTwoTypes.opExecute (fun _ s => s)
        [⟨1, exampleComponent 7 .ComponentTypeNormal 2, .CollectionOperateAdd⟩] (some 0)
        (fun _ => 0) = some c1 ∧ ¬ c1.inOnce 7 ∧
      c1.clearDisposable = some c2 ∧
      c2.collections.deref 0 = c1.collections.deref 0 ∧
      c2.collections.GetByType 7 = some (some 0) :=
  have hno : ¬ exampleTwoTypes.inOnce 7 := by
    rintro ⟨sh, hsh, ht⟩
    simp only [exampleTwoTypes, List.mem_cons, List.mem_singleton, List.not_mem_nil,
      or_false] at hsh
    rcases hsh with h | h | h | h <;> subst h <;> simp at ht
  ⟨by decide, hno,
    clearDisposable_keeps_other_types (fun _ s => s) exampleTwoTypes exampleTwoTypes_WF
      exampleTwoTypes_Inj 7 0 (by decide) hno
      [⟨1, exampleComponent 7 .ComponentTypeNormal 2, .CollectionOperateAdd⟩] 0 (fun _ => 0)
      (by decide) (by
        intro task htask _ hk
        simp only [List.mem_singleton] at htask
        subst htask
        rcases hk with hk | hk <;> cases hk)⟩

end Ecs
